import Mathlib

/-!
Verification development for the Kaskade scheduling-and-execution core.

Shallow embedding of the Rust sources under a faithful translation:
machine integers become `Nat`/`Int` with the explicit saturating / range-checked
conversions the source performs, fallible code returns `Except`, UUID
generation is modelled by a fresh-id counter threaded through the store, and
SQL statements are modelled by their row-level semantics on list-backed tables.
`f64` quantities appear only as exactly-representable constants and order
comparisons; they are embedded as rationals.
-/

namespace Kaskade

/-! ## Numeric boundary helpers (Rust cast and saturating semantics) -/

/-- Largest `i64` value, as an integer. -/
def I64MAX : Int := 2 ^ 63 - 1

/-- Largest `i128` value, as an integer. -/
def I128MAX : Int := 2 ^ 127 - 1

/-- Smallest `i128` value, as an integer. -/
def I128MIN : Int := -(2 ^ 127)

/-- Largest `u64` value, as a natural number. -/
def U64MAX : Nat := 2 ^ 64 - 1

/-- Rust `i128::saturating_add`. -/
def satAddI128 (a b : Int) : Int := max I128MIN (min I128MAX (a + b))

/-- Rust `i128::saturating_sub`. -/
def satSubI128 (a b : Int) : Int := max I128MIN (min I128MAX (a - b))

/-- Rust `i128::saturating_mul` restricted to the only use site
(`x.saturating_mul(2)` with `x` obtained from a `u128` cast). -/
def satMul2I128 (a : Int) : Int := max I128MIN (min I128MAX (a * 2))

/-- Rust `v as i128` applied to a `u128` value: wraps modulo `2^128`. -/
def u128AsI128 (v : Nat) : Int :=
  if v < 2 ^ 127 then (v : Int) else (v : Int) - 2 ^ 128

/-- Rust `u64::saturating_add`. -/
def satAddU64 (a b : Nat) : Nat := min (a + b) U64MAX

/-- `execution::u128_to_i64`: range-checked narrowing, errors on overflow. -/
def u128_to_i64 (v : Nat) : Except String Int :=
  if (v : Int) > I64MAX then .error "u128 too large for i64" else .ok (v : Int)

/-- `execution::u32_to_i64`: lossless conversion. -/
def u32_to_i64 (v : Nat) : Except String Int := .ok (v : Int)

/-- `repository_sqlx::u64_to_i64`: range-checked narrowing. -/
def u64_to_i64 (v : Nat) : Except String Int :=
  if (v : Int) > I64MAX then .error "u64 too large for i64" else .ok (v : Int)

/-! ## Session domain model (`backend/src/session/model.rs`)

Monetary amounts are `u128` (embedded as `Nat`), chunk counts `u32` (`Nat`),
timestamps `u64` (`Nat`), the DRR deficit `i128` (`Int`).  The three
constraint maxima are `f64` user thresholds; they are only ever compared with
`<=` against pulse outputs, so they are embedded as rationals. -/

structure UserConstraints where
  max_spread_bps : Rat
  max_trend_drop_bps : Rat
  max_slippage_bps : Rat
deriving DecidableEq, Repr

structure SessionIntent where
  constraints : UserConstraints
  preferred_chunk_bid : Nat
  max_bid_per_tick : Nat
deriving DecidableEq, Repr

structure SessionState where
  remaining_bid : Nat
  remaining_chunks : Nat
  in_flight_bid : Nat
  in_flight_chunks : Nat
  cooldown_until_ms : Nat
  quantum : Nat
  deficit : Int
  last_served_ms : Nat
  has_pending_batch : Bool
deriving DecidableEq, Repr

structure Session where
  session_id : Nat
  pair_id : String
  active : Bool
  intent : SessionIntent
  state : SessionState
deriving DecidableEq, Repr

/-- `Session::available_bid`: `remaining_bid.saturating_sub(in_flight_bid)`
(`Nat` subtraction is exactly Rust's saturating subtraction). -/
def Session.available_bid (s : Session) : Nat :=
  s.state.remaining_bid - s.state.in_flight_bid

/-- `Session::available_chunks`. -/
def Session.available_chunks (s : Session) : Nat :=
  s.state.remaining_chunks - s.state.in_flight_chunks

/-! ## Market view (`backend/src/market_view/types.rs` / `market/types.rs`)

The three bps fields are `f64` pulse outputs; embedded as rationals. -/

structure MarketMetricsView where
  ts_ms : Nat
  spread_bps : Rat
  trend_drop_bps : Rat
  slippage_bps : Rat
  depth_now_in : Nat
deriving DecidableEq, Repr

/-- Gate A (`scheduler.rs::constraints_ok`): the market snapshot satisfies the
session's three constraint maxima. -/
def constraints_ok (s : Session) (m : MarketMetricsView) : Bool :=
  m.spread_bps ≤ s.intent.constraints.max_spread_bps
    && m.trend_drop_bps ≤ s.intent.constraints.max_trend_drop_bps
    && m.slippage_bps ≤ s.intent.constraints.max_slippage_bps

/-! ## DRR fairness (`backend/src/scheduler/drr.rs`) -/

/-- `drr::accumulate_credit`:
`deficit <- min(deficit.saturating_add(quantum as i128), (preferred as i128).saturating_mul(2))`. -/
def accumulate_credit (s : Session) : Session :=
  let max_credit := satMul2I128 (u128AsI128 s.intent.preferred_chunk_bid)
  let next_credit := satAddI128 s.state.deficit (u128AsI128 s.state.quantum)
  { s with state := { s.state with deficit := min next_credit max_credit } }

/-- `drr::can_serve`: `deficit >= cost as i128`. -/
def can_serve (s : Session) (cost_bid : Nat) : Bool :=
  s.state.deficit ≥ u128AsI128 cost_bid

/-- `drr::charge`: `deficit <- deficit.saturating_sub(cost as i128)`. -/
def charge (s : Session) (cost_bid : Nat) : Session :=
  { s with state :=
    { s.state with deficit := satSubI128 s.state.deficit (u128AsI128 cost_bid) } }

/-! ## Session cache (`backend/src/session/cache.rs`)

The `HashMap` is embedded as an association list of sessions, the RR ring as a
list of ids (front of the list = front of the ring). -/

structure SessionCache where
  max_cached : Nat
  eviction_scan : Nat
  map : List Session
  rr : List Nat
deriving DecidableEq, Repr

/-- `SessionCache::get`: cloned lookup by id. -/
def SessionCache.get (c : SessionCache) (id : Nat) : Option Session :=
  c.map.find? (fun s => s.session_id = id)

/-- `SessionCache::rotate`: pop the front of the RR ring, push it to the back,
return it. -/
def SessionCache.rotate (c : SessionCache) : Option Nat × SessionCache :=
  match c.rr with
  | [] => (none, c)
  | i :: rest => (some i, { c with rr := rest ++ [i] })

/-- `cache.rs::pick_victim`: scan a bounded prefix of the RR ring for the entry
with the lowest deficit, ties broken by oldest `last_served_ms`. -/
def pick_victim (map : List Session) (rr : List Nat) (scan : Nat) : Option Nat :=
  let step := fun (best : Option (Nat × Int × Nat)) (id : Nat) =>
    match map.find? (fun s => s.session_id = id) with
    | none => best
    | some s =>
      let cand := (id, s.state.deficit, s.state.last_served_ms)
      match best with
      | none => some cand
      | some (bid, bdef, blast) =>
        if cand.2.1 < bdef || (cand.2.1 = bdef && cand.2.2 < blast) then some cand
        else some (bid, bdef, blast)
  ((rr.take (min rr.length scan)).foldl step none).map (fun b => b.1)

/-- `SessionCache::upsert`: insert-or-update, evicting a cold entry when a new
id would exceed capacity, and ensure exactly one RR entry for the id. -/
def SessionCache.upsert (c : SessionCache) (s : Session) : SessionCache :=
  let is_new := (c.map.find? (fun x => x.session_id = s.session_id)).isNone
  let c1 :=
    if is_new && c.map.length ≥ c.max_cached then
      match pick_victim c.map c.rr c.eviction_scan with
      | some v =>
        { c with map := c.map.filter (fun x => x.session_id ≠ v),
                 rr := c.rr.filter (fun x => x ≠ v) }
      | none =>
        match c.rr with
        | v :: rest =>
          { c with map := c.map.filter (fun x => x.session_id ≠ v),
                   rr := rest.filter (fun x => x ≠ v) }
        | [] => c
    else c
  if (c1.map.find? (fun x => x.session_id = s.session_id)).isSome then
    let m := c1.map.map (fun x => if x.session_id = s.session_id then s else x)
    if c1.rr.contains s.session_id then { c1 with map := m }
    else { c1 with map := m, rr := c1.rr ++ [s.session_id] }
  else
    if c1.rr.contains s.session_id then { c1 with map := c1.map ++ [s] }
    else { c1 with map := c1.map ++ [s], rr := c1.rr ++ [s.session_id] }

/-! ## Intent selection (`backend/src/scheduler/scheduler.rs::pick_intents`)

The planner-level intent produced per selected session. -/

structure PlannerUserIntent where
  session_id : Nat
  desired_bid : Nat
  desired_chunks : Nat
deriving DecidableEq, Repr

structure PickState where
  cache : SessionCache
  served : List Nat
  out : List PlannerUserIntent
deriving DecidableEq, Repr

/-- One `while` iteration body of `pick_intents` after a successful rotation
and cache hit, on session `s`.  Mirrors scheduler.rs lines 227-269: the
source applies no Gate A constraint check and no
active/cooldown/pending/chunk-availability eligibility filter here (the
`_market` parameter of `pick_intents` is unused). -/
def pickStep (now_ms : Nat) (st : PickState) (s : Session) : PickState :=
  if st.served.contains s.session_id then st
  else
    let s := accumulate_credit s
    let want := min s.intent.preferred_chunk_bid
      (min s.intent.max_bid_per_tick s.available_bid)
    if want = 0 then { st with cache := st.cache.upsert s }
    else if ¬ can_serve s want then { st with cache := st.cache.upsert s }
    else
      let s := charge s want
      let s := { s with state := { s.state with last_served_ms := now_ms } }
      { cache := st.cache.upsert s,
        served := st.served ++ [s.session_id],
        out := st.out ++ [⟨s.session_id, want, min 1 s.available_chunks⟩] }

/-- The bounded selection loop of `pick_intents`: `fuel` plays the role of the
remaining `max_attempts` budget (the attempt counter increments on every
iteration, including skipped ones). -/
def pickLoop (max_users : Nat) (now_ms : Nat) : Nat → PickState → PickState
  | 0, st => st
  | fuel + 1, st =>
    if st.out.length ≥ max_users then st
    else
      match st.cache.rotate with
      | (none, _) => st
      | (some sid, c1) =>
        let st := { st with cache := c1 }
        match st.cache.get sid with
        | none => pickLoop max_users now_ms fuel st
        | some s => pickLoop max_users now_ms fuel (pickStep now_ms st s)

/-- `Scheduler::pick_intents` for one tick: RR scanning bounded by
`max_attempts`, at most `max_users` selections. -/
def pick_intents (cache : SessionCache) (max_attempts max_users now_ms : Nat) :
    PickState :=
  pickLoop max_users now_ms max_attempts { cache := cache, served := [], out := [] }

/-! ## Sizing planner (`backend/src/planner/sizing.rs`, `planner/types.rs`)

`depth_utilization` is an `f64` in `[0,1]`; the source computes
`depth_cap = (depth_now_in as f64 * depth_utilization).floor().max(0.0) as u128`.
That floating-point product is outside the embedding; the planner is therefore
modelled directly on the resulting natural number `depth_cap`, and the policy
record carries the remaining integer fields unchanged. -/

structure SizingPolicy where
  hard_max_total_bid_per_tick : Nat
  max_bid_per_user_per_tick : Nat
  max_chunk_bid : Nat
  min_chunk_bid : Nat
deriving DecidableEq, Repr

structure PlannedAllocation where
  session_id : Nat
  total_bid : Nat
  chunks : List Nat
deriving DecidableEq, Repr

/-- Loop body of `split_into_chunks`: `while rem >= min_chunk { c = rem.min(max_chunk); push c; rem -= c }`.
The Rust loop does not terminate when it produces a zero-sized chunk (possible
only when `min_chunk = 0` or `max_chunk = 0`); the embedding is fueled, and
`fuel = total + 1` reproduces the loop exactly whenever
`min_chunk ≥ 1 ∧ max_chunk ≥ 1` (each iteration then strictly decreases `rem`). -/
def splitGo (max_chunk min_chunk : Nat) : Nat → Nat → List Nat
  | 0, _ => []
  | fuel + 1, rem =>
    if rem < min_chunk then []
    else
      let c := min rem max_chunk
      c :: splitGo max_chunk min_chunk fuel (rem - c)

/-- `sizing.rs::split_into_chunks`. -/
def split_into_chunks (total max_chunk min_chunk : Nat) : List Nat :=
  if total < min_chunk then [] else splitGo max_chunk min_chunk (total + 1) total

/-- Per-intent loop of `derive_execution_plan` (first-fit against the running
global budget, stopping early once the budget cannot form a chunk). -/
def planGo (policy : SizingPolicy) : List PlannerUserIntent → Nat → List PlannedAllocation
  | [], _ => []
  | u :: rest, budget =>
    if budget < policy.min_chunk_bid then []
    else
      let want := u.desired_bid
      if want < policy.min_chunk_bid then planGo policy rest budget
      else
        let allow := min want (min policy.max_bid_per_user_per_tick budget)
        if allow < policy.min_chunk_bid then planGo policy rest budget
        else
          let chunks := split_into_chunks allow policy.max_chunk_bid policy.min_chunk_bid
          if chunks.isEmpty then planGo policy rest budget
          else
            let s := chunks.sum
            ⟨u.session_id, s, chunks⟩ :: planGo policy rest (budget - s)

/-- `sizing.rs::derive_execution_plan`, with the `f64` depth computation
abstracted into `depth_cap` (see the section comment). -/
def derive_execution_plan (depth_cap : Nat) (intents : List PlannerUserIntent)
    (policy : SizingPolicy) : List PlannedAllocation :=
  if intents.isEmpty then []
  else
    let total_cap := min depth_cap policy.hard_max_total_bid_per_tick
    if total_cap < policy.min_chunk_bid then []
    else planGo policy intents total_cap

/-! ## Persistent store model (`backend/src/db/schema.rs`, `session/repository_sqlx.rs`)

The three tables are embedded as lists of rows.  All `INT8` columns are `Int`
(64-bit signed storage; every value written passes through the range-checked
conversions above, and the verified operations never take a stored value out
of `i64` range).  `TEXT` status columns stay strings, exactly as the source
matches on them.  UUIDs become naturals drawn from the `next_id` counter,
which models `Uuid::new_v4` freshness. -/

structure SessRow where
  session_id : Nat
  pair_id : String
  active : Bool
  max_spread_bps : Rat
  max_trend_drop_bps : Rat
  max_slippage_bps : Rat
  preferred_chunk_bid : Int
  max_bid_per_tick : Int
  remaining_bid : Int
  remaining_chunks : Int
  in_flight_bid : Int
  in_flight_chunks : Int
  cooldown_until_ms : Int
  quantum : Int
  deficit : Int
  last_served_ms : Int
  has_pending_batch : Bool
deriving DecidableEq, Repr

structure BatchRow where
  batch_id : Nat
  pair_id : String
  created_ms : Int
  status : String
  reason : String
deriving DecidableEq, Repr

structure ItemRow where
  chunk_id : Nat
  batch_id : Nat
  session_id : Nat
  bid : Int
  status : String
  tx_id : String
  error : String
deriving DecidableEq, Repr

structure DB where
  sessions : List SessRow
  batches : List BatchRow
  items : List ItemRow
  next_id : Nat
deriving DecidableEq, Repr

/-- Row-level semantics of `UPDATE sessions ... WHERE session_id = sid`:
every matching row is transformed. -/
def updateSessions (ss : List SessRow) (sid : Nat) (f : SessRow → SessRow) :
    List SessRow :=
  ss.map (fun r => if r.session_id = sid then f r else r)

/-- Row-level semantics of `UPDATE batch_items ... WHERE batch_id = ? AND chunk_id = ?`. -/
def updateItems (its : List ItemRow) (bid cid : Nat) (f : ItemRow → ItemRow) :
    List ItemRow :=
  its.map (fun it => if it.batch_id = bid ∧ it.chunk_id = cid then f it else it)

/-- `SELECT ... FROM batch_items WHERE batch_id = ? AND chunk_id = ?` with
`fetch_one` semantics captured by the caller. -/
def findItem (its : List ItemRow) (bid cid : Nat) : Option ItemRow :=
  its.find? (fun it => it.batch_id = bid ∧ it.chunk_id = cid)

/-! ## Reservation protocol (`repository_sqlx.rs::reserve_execution`) -/

structure ReservedChunk where
  chunk_id : Nat
  bid : Nat
deriving DecidableEq, Repr

structure ReservedUser where
  session_id : Nat
  chunks : List ReservedChunk
deriving DecidableEq, Repr

structure ReservedBatch where
  batch_id : Nat
  pair_id : String
  created_ms : Nat
  users : List ReservedUser
deriving DecidableEq, Repr

/-- The `WHERE` clause of the conditional reservation `UPDATE` for one
allocation: session id and pair match, active, no pending batch, and the
un-reserved remainder covers the requested bid sum and chunk count. -/
def reserveCond (r : SessRow) (sid : Nat) (pair : String) (tb tc : Int) : Bool :=
  r.session_id = sid ∧ r.pair_id = pair ∧ r.active ∧ r.has_pending_batch = false
    ∧ r.remaining_bid - r.in_flight_bid ≥ tb
    ∧ r.remaining_chunks - r.in_flight_chunks ≥ tc

/-- The `SET` clause of the reservation `UPDATE`. -/
def reserveSet (tb tc : Int) (r : SessRow) : SessRow :=
  { r with in_flight_bid := r.in_flight_bid + tb,
           in_flight_chunks := r.in_flight_chunks + tc,
           has_pending_batch := true }

/-- Accumulator for the per-allocation loop inside the reservation
transaction: the sessions table as updated so far, the freshly inserted
`batch_items` rows, the reserved users, the first-success flag, and the fresh
id counter. -/
structure RAcc where
  sessions : List SessRow
  new_items : List ItemRow
  users : List ReservedUser
  any : Bool
  next : Nat
deriving DecidableEq, Repr

/-- Insertion of the `batch_items` rows for one successfully reserved
allocation (one fresh chunk id per chunk, status `PENDING`). -/
def insertChunks (batch_id sid : Nat) :
    List Nat → Nat → Except String (List ReservedChunk × List ItemRow × Nat)
  | [], next => .ok ([], [], next)
  | bid :: rest, next =>
    match u128_to_i64 bid with
    | .error e => .error e
    | .ok b =>
      match insertChunks batch_id sid rest (next + 1) with
      | .error e => .error e
      | .ok (cs, its, next1) =>
        .ok (⟨next, bid⟩ :: cs, ⟨next, batch_id, sid, b, "PENDING", "", ""⟩ :: its,
          next1)

/-- One iteration of the allocation loop of `reserve_execution`: run the
conditional `UPDATE` (its row count is the filter length, its effect the map);
zero rows affected is a CAS miss and skips the allocation; one row affected
inserts the batch row on the first success (where the source binds
`created_ms`, hence the `u64_to_i64` check there) and the `PENDING` items. -/
def reserveAlloc (pair : String) (now_ms batch_id : Nat) (acc : RAcc)
    (a : PlannedAllocation) : Except String RAcc :=
  match u128_to_i64 a.chunks.sum with
  | .error e => .error e
  | .ok tb =>
    match u32_to_i64 a.chunks.length with
    | .error e => .error e
    | .ok tc =>
      if (acc.sessions.filter (fun r =>
          reserveCond r a.session_id pair tb tc)).length ≠ 1 then
        .ok { acc with sessions := acc.sessions.map (fun r =>
          if reserveCond r a.session_id pair tb tc then reserveSet tb tc r else r) }
      else
        match (if acc.any then .ok 0 else u64_to_i64 now_ms : Except String Int) with
        | .error e => .error e
        | .ok _ =>
          match insertChunks batch_id a.session_id a.chunks acc.next with
          | .error e => .error e
          | .ok (chunks_out, items1, next1) =>
            .ok { sessions := acc.sessions.map (fun r =>
                    if reserveCond r a.session_id pair tb tc then
                      reserveSet tb tc r
                    else r),
                  new_items := acc.new_items ++ items1,
                  users := acc.users ++ [⟨a.session_id, chunks_out⟩],
                  any := true,
                  next := next1 }

/-- Fold of `reserveAlloc` over the allocation list. -/
def reserveLoop (pair : String) (now_ms batch_id : Nat) :
    List PlannedAllocation → RAcc → Except String RAcc
  | [], acc => .ok acc
  | a :: rest, acc =>
    match reserveAlloc pair now_ms batch_id acc a with
    | .error e => .error e
    | .ok acc1 => reserveLoop pair now_ms batch_id rest acc1

/-- `SqlxSessionRepository::reserve_execution`: one transaction that tries the
conditional `UPDATE` per allocation, inserts the `RESERVED` batch row on first
success and a `PENDING` item per chunk, and rolls back (returning `none` with
the store untouched) when no allocation succeeds.  Errors (range-checked
conversions) also roll back: the caller keeps the original store. -/
def reserve_execution (db : DB) (pair : String) (now_ms : Nat)
    (allocations : List PlannedAllocation) :
    Except String (Option ReservedBatch × DB) :=
  match reserveLoop pair now_ms db.next_id allocations
      ⟨db.sessions, [], [], false, db.next_id + 1⟩ with
  | .error e => .error e
  | .ok acc =>
    if acc.any = false then .ok (none, db)
    else
      match u64_to_i64 now_ms with
      | .error e => .error e
      | .ok created =>
        .ok (some ⟨db.next_id, pair, now_ms, acc.users⟩,
          { sessions := acc.sessions,
            batches := db.batches ++ [⟨db.next_id, pair, created, "RESERVED", ""⟩],
            items := db.items ++ acc.new_items,
            next_id := acc.next })

/-- `execution::reserve_execution` (the wrapper in `execution/mod.rs` that the
scheduler calls): rejects an empty allocation set and allocations with zero
chunks, then delegates to the repository. -/
def reserve_execution_checked (db : DB) (pair : String) (now_ms : Nat)
    (allocations : List PlannedAllocation) :
    Except String (Option ReservedBatch × DB) :=
  if allocations.isEmpty then .error "attempted to reserve empty allocation set"
  else if allocations.any (fun a => a.chunks.isEmpty) then
    .error "allocation with zero chunks"
  else reserve_execution db pair now_ms allocations

/-! ## Executor result types (`backend/src/execution/types.rs`) -/

inductive ChunkStatus where
  | success (tx_id : String)
  | failed (reason : String)
  | skipped (reason : String)
deriving DecidableEq, Repr

structure ChunkResult where
  chunk_id : Nat
  status : ChunkStatus
deriving DecidableEq, Repr

structure UserResult where
  session_id : Nat
  chunk_results : List ChunkResult
  cooldown_ms : Option Nat
deriving DecidableEq, Repr

/-! ## Commit protocol (`repository_sqlx.rs::commit_batch`)

The wall clock read `now_ms()` inside the source is passed in as the `now_ms`
parameter. -/

/-- Per-chunk body of the commit loop (repository_sqlx.rs lines 286-375):
read the item row (`fetch_one` errors when absent), skip non-`PENDING` rows,
otherwise apply the status-specific item and session updates. -/
def commitChunk (now_i64 : Int) (batch_id sid : Nat) (db : DB) (cr : ChunkResult) :
    Except String DB :=
  match findItem db.items batch_id cr.chunk_id with
  | none => .error "no such batch item row"
  | some it =>
    if it.status ≠ "PENDING" then .ok db
    else
      match cr.status with
      | .success tx_id =>
        .ok { db with
          items := updateItems db.items batch_id cr.chunk_id (fun r =>
            { r with status := "SUCCESS", tx_id := tx_id, error := "" }),
          sessions := updateSessions db.sessions sid (fun r =>
            { r with in_flight_bid := r.in_flight_bid - it.bid,
                     in_flight_chunks := r.in_flight_chunks - 1,
                     remaining_bid := r.remaining_bid - it.bid,
                     remaining_chunks := r.remaining_chunks - 1,
                     last_served_ms := now_i64 }) }
      | .failed reason =>
        .ok { db with
          items := updateItems db.items batch_id cr.chunk_id (fun r =>
            { r with status := "FAILED", tx_id := "", error := reason }),
          sessions := updateSessions db.sessions sid (fun r =>
            { r with in_flight_bid := r.in_flight_bid - it.bid,
                     in_flight_chunks := r.in_flight_chunks - 1 }) }
      | .skipped reason =>
        .ok { db with
          items := updateItems db.items batch_id cr.chunk_id (fun r =>
            { r with status := "SKIPPED", tx_id := "", error := reason }),
          sessions := updateSessions db.sessions sid (fun r =>
            { r with in_flight_bid := r.in_flight_bid - it.bid,
                     in_flight_chunks := r.in_flight_chunks - 1 }) }

/-- Optional monotone cooldown update of the commit loop
(`cooldown_until_ms <- max(current, now.saturating_add(cd))`, via the source's
`CASE WHEN`). -/
def commitCooldown (now_ms : Nat) (db : DB) (ur : UserResult) : Except String DB :=
  match ur.cooldown_ms with
  | none => .ok db
  | some cd =>
    match u64_to_i64 (satAddU64 now_ms cd) with
    | .error e => .error e
    | .ok until_i64 =>
      .ok { db with sessions := updateSessions db.sessions ur.session_id (fun r =>
        { r with cooldown_until_ms :=
            if r.cooldown_until_ms > until_i64 then r.cooldown_until_ms
            else until_i64 }) }

/-- Per-user body of the commit loop: the optional cooldown update, then the
chunk results in order. -/
def commitUser (now_ms : Nat) (now_i64 : Int) (batch_id : Nat) (db : DB)
    (ur : UserResult) : Except String DB :=
  match commitCooldown now_ms db ur with
  | .error e => .error e
  | .ok db1 => ur.chunk_results.foldlM (commitChunk now_i64 batch_id ur.session_id) db1

/-- `SqlxSessionRepository::commit_batch`: transactional and idempotent.
An error leaves the store unchanged (transaction rollback) — the caller keeps
the original store.  Touched sessions (every `session_id` in the payload) get
`has_pending_batch` cleared, and the batch is finalized `COMMITTED`. -/
def commit_batch (now_ms : Nat) (db : DB) (batch : ReservedBatch)
    (results : List UserResult) : Except String DB :=
  match db.batches.find? (fun b => b.batch_id = batch.batch_id) with
  | none => .error "batch row not found"
  | some row =>
    if row.status = "RESERVED" then
      match u64_to_i64 now_ms with
      | .error e => .error e
      | .ok now_i64 =>
        match results.foldlM (commitUser now_ms now_i64 batch.batch_id) db with
        | .error e => .error e
        | .ok db1 =>
          .ok { sessions := (db1.sessions.map (fun r =>
                  if (results.map (fun ur => ur.session_id)).contains r.session_id
                  then { r with has_pending_batch := false }
                  else r)),
                batches := db1.batches.map (fun b =>
                  if b.batch_id = batch.batch_id then
                    { b with status := "COMMITTED", reason := "" }
                  else b),
                items := db1.items,
                next_id := db1.next_id }
    else if row.status = "COMMITTED" ∨ row.status = "ABORTED" then .ok db
    else .error ("unexpected batch status: " ++ row.status)

/-- Run `commit_batch` keeping the pre-call store on error (the dropped
transaction rolls back). -/
def applyCommit (now_ms : Nat) (db : DB) (batch : ReservedBatch)
    (results : List UserResult) : DB :=
  match commit_batch now_ms db batch results with
  | .ok db1 => db1
  | .error _ => db

/-! ## Startup recovery

Modelled from the spec: the implementation of
`SessionRepository::recover_uncommitted` is absent from the sources — the
`SessionRepository` trait (session/repository.rs) does not declare it and no
impl defines it; only the delegating wrapper `execution::recover_uncommitted`
(execution/mod.rs lines 18-20) and the startup call in main.rs exist.  The
definition below follows spec §4.11: for every `RESERVED` batch, unwind the
in-flight effect of each `PENDING` chunk on its owning session, mark the chunk
`SKIPPED` with reason `RECOVERED`, clear `has_pending_batch` for every touched
session, and transition the batch to `ABORTED` with a reason noting recovery. -/
def recoverBatch (db : DB) (b : BatchRow) : DB :=
  let pend := db.items.filter (fun it =>
    it.batch_id = b.batch_id ∧ it.status = "PENDING")
  let sessions1 := pend.foldl (fun ss it =>
    updateSessions ss it.session_id (fun r =>
      { r with in_flight_bid := r.in_flight_bid - it.bid,
               in_flight_chunks := r.in_flight_chunks - 1 })) db.sessions
  let touched := pend.map (fun it => it.session_id)
  let sessions2 := sessions1.map (fun r =>
    if touched.contains r.session_id then { r with has_pending_batch := false }
    else r)
  { db with
    sessions := sessions2,
    items := db.items.map (fun it =>
      if it.batch_id = b.batch_id ∧ it.status = "PENDING" then
        { it with status := "SKIPPED", error := "RECOVERED" }
      else it),
    batches := db.batches.map (fun x =>
      if x.batch_id = b.batch_id then
        { x with status := "ABORTED", reason := "recovered uncommitted batch" }
      else x) }

/-- Modelled from the spec (see `recoverBatch`): `recover_uncommitted`
processes every batch whose stored status is `RESERVED`. -/
def recover_uncommitted (db : DB) : DB :=
  (db.batches.filter (fun b => b.status = "RESERVED")).foldl recoverBatch db

/-! ## Executor worker (`backend/src/execution/executor.rs`) -/

/-- Gate B (`executor.rs::gate_b_ok`): re-check the three constraints against
the latest snapshot; a missing snapshot fails closed. -/
def gate_b_ok (s : Session) (market : Option MarketMetricsView) : Bool :=
  match market with
  | none => false
  | some m =>
    m.spread_bps ≤ s.intent.constraints.max_spread_bps
      && m.trend_drop_bps ≤ s.intent.constraints.max_trend_drop_bps
      && m.slippage_bps ≤ s.intent.constraints.max_slippage_bps

/-- `executor.rs::classify_error`: normalize an error message into a bounded
stable reason string. -/
def classify_error (s : String) : String :=
  if List.IsInfix "MarketNotOpen".toList s.toList then "MarketNotOpen"
  else if List.IsInfix "Slippage".toList s.toList then "Slippage"
  else if List.IsInfix "InsufficientLiquidity".toList s.toList then "InsufficientLiquidity"
  else if s.length > 160 then "ERR:" ++ (s.toList.take 160).asString
  else s

/-- Outcome of one external `execute_swap` call; the chain-side executor is an
abstract capability, modelled as a function from chunk id to outcome. -/
def SwapExec : Type := Nat → Except String String

/-- Per-user chunk loop of `ExecutorWorker::execute_batch` (lines 275-313):
Gate B before each chunk; on the first Gate-B failure mark that chunk
`SKIPPED` and stop; on an execution error classify, mark `FAILED`, and stop.
Returns the chunk results, the `any_failed` flag, and the number of
`execute_swap` invocations made. -/
def execChunks (s : Session) (market : Option MarketMetricsView) (exec : SwapExec) :
    List ReservedChunk → List ChunkResult × Bool × Nat
  | [] => ([], false, 0)
  | ch :: rest =>
    if ¬ gate_b_ok s market then
      ([⟨ch.chunk_id, .skipped "GATE_B_CONSTRAINTS"⟩], false, 0)
    else
      match exec ch.chunk_id with
      | .ok tx_id =>
        let (crs, af, n) := execChunks s market exec rest
        (⟨ch.chunk_id, .success tx_id⟩ :: crs, af, n + 1)
      | .error e =>
        ([⟨ch.chunk_id, .failed (classify_error e)⟩], true, 1)

/-- Per-user body of `execute_batch` (lines 222-320): session load failure
skips every chunk with `SESSION_NOT_FOUND` and a 5000 ms cooldown; an inactive
session skips every chunk with `SESSION_INACTIVE`; otherwise the chunk loop
runs and a failure attaches the configured failure cooldown. -/
def execUser (load : Nat → Option Session) (market : Option MarketMetricsView)
    (exec : SwapExec) (failure_cooldown_ms : Nat) (u : ReservedUser) :
    UserResult × Nat :=
  match load u.session_id with
  | none =>
    (⟨u.session_id,
      u.chunks.map (fun c => ⟨c.chunk_id, .skipped "SESSION_NOT_FOUND"⟩),
      some 5000⟩, 0)
  | some s =>
    if s.active = false then
      (⟨u.session_id,
        u.chunks.map (fun c => ⟨c.chunk_id, .skipped "SESSION_INACTIVE"⟩),
        none⟩, 0)
    else
      let (crs, af, n) := execChunks s market exec u.chunks
      (⟨u.session_id, crs, if af then some failure_cooldown_ms else none⟩, n)

/-- Result-building phase of `ExecutorWorker::execute_batch`: the per-user
results in batch order plus the total number of swap-executor invocations.
The single `commit_batch` call that follows is composed explicitly in the
theorems. -/
def executeBatchResults (load : Nat → Option Session)
    (market : Option MarketMetricsView) (exec : SwapExec)
    (failure_cooldown_ms : Nat) (batch : ReservedBatch) :
    List UserResult × Nat :=
  batch.users.foldl (fun (acc : List UserResult × Nat) u =>
    let (ur, n) := execUser load market exec failure_cooldown_ms u
    (acc.1 ++ [ur], acc.2 + n)) ([], 0)

/-! ## Market-quality pulses (`market/src/pulse/{spread,trend,depth}.rs`,
`market/src/rolling_window.rs`)

Prices are `f64`; the pulse computations here are embedded over exact
rationals.  The claims settled below concern only the warm-up / sentinel
branches, whose values (`f64::MAX`, comparisons against user thresholds) are
exactly representable, so no floating-point rounding enters those theorems. -/

/-- The exact value of `f64::MAX`, `(2^53 - 1) * 2^971`, as a rational. -/
def F64MAX : Rat := ((2 ^ 53 - 1 : Nat) : Rat) * (2 : Rat) ^ (971 : Nat)

inductive PulseValidity where
  | Invalid
  | Valid
deriving DecidableEq, Repr

/-- `rolling_window.rs::RollingWindow`: time-ordered samples plus the
monotonic max queue. -/
structure RollingWindow where
  values : List (Nat × Rat)
  max_queue : List (Nat × Rat)
  max_age_ms : Nat
deriving DecidableEq, Repr

/-- `RollingWindow::new` (30 s default max age). -/
def RollingWindow.new : RollingWindow := ⟨[], [], 30000⟩

/-- `RollingWindow::evict_old` (the `now_ms - front.ts_ms` of the source is a
`u64` subtraction on a non-decreasing stream; `Nat` subtraction agrees on every
in-order input). -/
def RollingWindow.evictOld (w : RollingWindow) (now_ms : Nat) : RollingWindow :=
  let rec go (vals maxq : List (Nat × Rat)) : List (Nat × Rat) × List (Nat × Rat) :=
    match vals with
    | [] => ([], maxq)
    | front :: rest =>
      if now_ms - front.1 > w.max_age_ms then
        let maxq1 :=
          match maxq with
          | mf :: mrest => if mf.1 = front.1 then mrest else maxq
          | [] => maxq
        go rest maxq1
      else (front :: rest, maxq)
  let (v, m) := go w.values w.max_queue
  { w with values := v, max_queue := m }

/-- Pop-from-the-back loop of `RollingWindow::push`, written structurally on
the reversed queue: drop trailing entries whose value is below the new price. -/
def dropSmallerGo (price : Rat) : List (Nat × Rat) → List (Nat × Rat)
  | [] => []
  | x :: rest => if x.2 < price then dropSmallerGo price rest else x :: rest

/-- Drop the tail of the monotonic max queue while it is below the new price. -/
def dropSmaller (price : Rat) (l : List (Nat × Rat)) : List (Nat × Rat) :=
  (dropSmallerGo price l.reverse).reverse

/-- `RollingWindow::push`. -/
def RollingWindow.push (w : RollingWindow) (ts_ms : Nat) (price : Rat) :
    RollingWindow :=
  let w1 := { w with values := w.values ++ [(ts_ms, price)],
                     max_queue := dropSmaller price w.max_queue ++ [(ts_ms, price)] }
  w1.evictOld ts_ms

/-- `RollingWindow::max`. -/
def RollingWindow.maxVal (w : RollingWindow) : Option Rat :=
  w.max_queue.head?.map (fun v => v.2)

/-- Modelled from the spec: `RollingWindow::is_warm` is called by the spread
and trend pulses but is absent from `rolling_window.rs`; spec §4.1 defines it
as true iff the window has at least `min_samples` entries and its span
(`latest.ts - oldest.ts`) is at least `min_age_ms`. -/
def RollingWindow.isWarm (w : RollingWindow) (min_samples min_age_ms : Nat) :
    Bool :=
  match w.values.head?, w.values.getLast? with
  | some oldest, some newest =>
    w.values.length ≥ min_samples ∧ newest.1 - oldest.1 ≥ min_age_ms
  | _, _ => false

/-- Modelled from the spec: `RollingWindow::oldest` is called by the trend
pulse but absent from `rolling_window.rs`; spec §4.1 lists it as the value of
the oldest entry. -/
def RollingWindow.oldest (w : RollingWindow) : Option Rat :=
  w.values.head?.map (fun v => v.2)

structure SpreadWarmup where
  min_samples : Nat
  min_age_ms : Nat
deriving DecidableEq, Repr

structure SpreadPulseResult where
  p_now : Rat
  p_best : Rat
  spread_bps : Rat
  validity : PulseValidity
deriving DecidableEq, Repr

/-- `SpreadPulseResult::default`. -/
def SpreadPulseResult.default : SpreadPulseResult :=
  ⟨0, 0, F64MAX, .Invalid⟩

/-- `spread.rs::compute_spread_pulse` (returning the updated window alongside
the result; the valid-branch ratio arithmetic is exact rational arithmetic
here, standing in for the source's `f64` arithmetic). -/
def compute_spread_pulse (ts_ms : Nat) (bid_units ask_units : Rat)
    (window : RollingWindow) (warmup : SpreadWarmup) :
    SpreadPulseResult × RollingWindow :=
  if bid_units ≤ 0 then (SpreadPulseResult.default, window)
  else
    let p_now := ask_units / bid_units
    let w1 := window.push ts_ms p_now
    if ¬ w1.isWarm warmup.min_samples warmup.min_age_ms then
      (⟨p_now, p_now, F64MAX, .Invalid⟩, w1)
    else
      let p_best := (w1.maxVal).getD p_now
      let spread_bps :=
        if p_best > 0 then ((p_best - p_now) / p_best) * 10000 else F64MAX
      (⟨p_now, p_best, spread_bps, .Valid⟩, w1)

structure TrendWarmup where
  min_samples : Nat
  min_age_ms : Nat
deriving DecidableEq, Repr

structure TrendPulseResult where
  p_now : Rat
  p_oldest : Rat
  trend_drop_bps : Rat
  validity : PulseValidity
deriving DecidableEq, Repr

/-- `TrendPulseResult::default`. -/
def TrendPulseResult.default : TrendPulseResult :=
  ⟨0, 0, F64MAX, .Invalid⟩

/-- `trend.rs::compute_trend`. -/
def compute_trend (ts_ms : Nat) (bid_units ask_units : Rat)
    (window : RollingWindow) (warmup : TrendWarmup) :
    TrendPulseResult × RollingWindow :=
  if bid_units ≤ 0 then (TrendPulseResult.default, window)
  else
    let p_now := ask_units / bid_units
    let w1 := window.push ts_ms p_now
    if ¬ w1.isWarm warmup.min_samples warmup.min_age_ms then
      (⟨p_now, p_now, F64MAX, .Invalid⟩, w1)
    else
      let p_oldest := (w1.oldest).getD p_now
      let trend_drop_bps :=
        if p_oldest > 0 then ((p_oldest - p_now) / p_oldest) * 10000 else F64MAX
      (⟨p_now, p_oldest, trend_drop_bps, .Valid⟩, w1)

/-- `depth.rs::DepthWindow`: same shape as the rolling window but over `u128`
depth values, with a saturating age computation. -/
structure DepthWindow where
  values : List (Nat × Nat)
  max_queue : List (Nat × Nat)
  max_age_ms : Nat
deriving DecidableEq, Repr

/-- `DepthWindow::evict_old` (uses `saturating_sub`, i.e. `Nat` subtraction;
eviction also compares the value, unlike the price window). -/
def DepthWindow.evictOld (w : DepthWindow) (now_ms : Nat) : DepthWindow :=
  let rec go (vals maxq : List (Nat × Nat)) : List (Nat × Nat) × List (Nat × Nat) :=
    match vals with
    | [] => ([], maxq)
    | front :: rest =>
      if now_ms - front.1 > w.max_age_ms then
        let maxq1 :=
          match maxq with
          | mf :: mrest =>
            if mf.1 = front.1 ∧ mf.2 = front.2 then mrest else maxq
          | [] => maxq
        go rest maxq1
      else (front :: rest, maxq)
  let (v, m) := go w.values w.max_queue
  { w with values := v, max_queue := m }

/-- Pop-from-the-back loop of `DepthWindow::push`, written structurally on the
reversed queue. -/
def dropSmallerNGo (depth : Nat) : List (Nat × Nat) → List (Nat × Nat)
  | [] => []
  | x :: rest => if x.2 < depth then dropSmallerNGo depth rest else x :: rest

/-- Monotone max-queue maintenance for the depth window. -/
def dropSmallerN (depth : Nat) (l : List (Nat × Nat)) : List (Nat × Nat) :=
  (dropSmallerNGo depth l.reverse).reverse

/-- `DepthWindow::push`. -/
def DepthWindow.push (w : DepthWindow) (ts_ms depth : Nat) : DepthWindow :=
  let w1 := { w with values := w.values ++ [(ts_ms, depth)],
                     max_queue := dropSmallerN depth w.max_queue ++ [(ts_ms, depth)] }
  w1.evictOld ts_ms

/-- `DepthWindow::max`. -/
def DepthWindow.maxVal (w : DepthWindow) : Option Nat :=
  w.max_queue.head?.map (fun v => v.2)

/-- `DepthWindow::age_ms`: `newest.ts.saturating_sub(oldest.ts)`. -/
def DepthWindow.ageMs (w : DepthWindow) : Option Nat :=
  match w.values.head?, w.values.getLast? with
  | some oldest, some newest => some (newest.1 - oldest.1)
  | _, _ => none

/-- `DepthWindow::is_warm` (depth.rs lines 140-145). -/
def DepthWindow.isWarm (w : DepthWindow) (min_samples min_age_ms : Nat) : Bool :=
  if w.values.length < min_samples then false
  else (w.ageMs).getD 0 ≥ min_age_ms

structure DepthPulseResult where
  depth_now : Rat
  depth_best : Rat
  depth_deficit_bps : Rat
  validity : PulseValidity
deriving DecidableEq, Repr

/-- `depth.rs::compute_depth_pulse`.  The `extract_depth_bid_units` quote
traversal is abstracted into the `depth_now` parameter (the source's value of
`extract_depth_bid_units(quote)`); constants `MIN_SAMPLES = 10`,
`MIN_AGE_MS = 5000`, `WINDOW_MAX_AGE_MS = 30000` are inlined as in the source. -/
def compute_depth_pulse (ts_ms : Nat) (depth_now : Option Nat)
    (window : DepthWindow) : DepthPulseResult × DepthWindow :=
  let window := { window with max_age_ms := 30000 }
  match depth_now with
  | some v =>
    if v > 0 then
      let w1 := window.push ts_ms v
      if ¬ w1.isWarm 10 5000 then
        (⟨(v : Rat), (v : Rat), F64MAX, .Invalid⟩, w1)
      else
        let depth_best := (w1.maxVal).getD v
        let dn : Rat := (v : Rat)
        let db : Rat := (depth_best : Rat)
        let bps := if db > 0 then (1 - dn / db) * 10000 else F64MAX
        (⟨dn, db, bps, .Valid⟩, w1)
    else (⟨0, 0, F64MAX, .Invalid⟩, window)
  | none => (⟨0, 0, F64MAX, .Invalid⟩, window)

/-! ## Concrete instances used by the theorems below -/

/-- A cached candidate session that fails every eligibility condition the
specification lists for intent selection: inactive, in cooldown at
`now_ms = 1000`, and with a pending batch. -/
def c1Session : Session :=
  { session_id := 0, pair_id := "P", active := false,
    intent := { constraints := ⟨0, 0, 0⟩, preferred_chunk_bid := 100,
                max_bid_per_tick := 100 },
    state := { remaining_bid := 1000, remaining_chunks := 10, in_flight_bid := 0,
               in_flight_chunks := 0, cooldown_until_ms := 9999, quantum := 100,
               deficit := 0, last_served_ms := 0, has_pending_batch := true } }

/-- A candidate whose quantum (1) is far below its preferred chunk bid (100),
so DRR keeps skipping it within the tick while the RR ring keeps returning it. -/
def c9Session : Session :=
  { session_id := 0, pair_id := "P", active := true,
    intent := { constraints := ⟨0, 0, 0⟩, preferred_chunk_bid := 100,
                max_bid_per_tick := 100 },
    state := { remaining_bid := 1000, remaining_chunks := 10, in_flight_bid := 0,
               in_flight_chunks := 0, cooldown_until_ms := 0, quantum := 1,
               deficit := 0, last_served_ms := 0, has_pending_batch := false } }

/-- Healthy session row for the Gate-B fail-closed scenario. -/
def c4Row : SessRow :=
  { session_id := 1, pair_id := "P", active := true,
    max_spread_bps := 10, max_trend_drop_bps := 10, max_slippage_bps := 10,
    preferred_chunk_bid := 100, max_bid_per_tick := 1000,
    remaining_bid := 1000, remaining_chunks := 10,
    in_flight_bid := 0, in_flight_chunks := 0,
    cooldown_until_ms := 0, quantum := 100, deficit := 0, last_served_ms := 0,
    has_pending_batch := false }

def c4DB : DB := { sessions := [c4Row], batches := [], items := [], next_id := 10 }

/-- One user, two chunks: the shape on which the fail-closed divergence shows. -/
def c4Alloc : PlannedAllocation :=
  { session_id := 1, total_bid := 300, chunks := [100, 200] }

/-- The cached session the worker loads for user 1 (active, post-reservation
state). -/
def c4Session : Session :=
  { session_id := 1, pair_id := "P", active := true,
    intent := { constraints := ⟨10, 10, 10⟩, preferred_chunk_bid := 100,
                max_bid_per_tick := 1000 },
    state := { remaining_bid := 1000, remaining_chunks := 10, in_flight_bid := 300,
               in_flight_chunks := 2, cooldown_until_ms := 0, quantum := 100,
               deficit := 0, last_served_ms := 0, has_pending_batch := true } }

/-- Full C4 scenario: reserve the two-chunk batch, run the worker with no
market snapshot for the pair, commit.  Returns the swap-executor call count
and the final store. -/
def c4Run : Except String (Nat × DB) := do
  let (ob, db1) ← reserve_execution c4DB "P" 5 [c4Alloc]
  match ob with
  | some b =>
    let (results, calls) := executeBatchResults
      (fun i => if i = 1 then some c4Session else none) none
      (fun _ => .ok "tx") 10000 b
    let db2 ← commit_batch 7 db1 b results
    .ok (calls, db2)
  | none => .error "no batch reserved"

/-- Policy with `min_chunk_bid = 5 > 3 = max_chunk_bid` for the planner
counterexample. -/
def c8BadPolicy : SizingPolicy :=
  { hard_max_total_bid_per_tick := 1000, max_bid_per_user_per_tick := 1000,
    max_chunk_bid := 3, min_chunk_bid := 5 }

/-- Well-formed policy used by the planner witness. -/
def c8GoodPolicy : SizingPolicy :=
  { hard_max_total_bid_per_tick := 1000, max_bid_per_user_per_tick := 1000,
    max_chunk_bid := 100, min_chunk_bid := 10 }

/-- A `PENDING` batch item used to exercise the per-chunk commit step. -/
def c7Item : ItemRow :=
  { chunk_id := 5, batch_id := 4, session_id := 2, bid := 50,
    status := "PENDING", tx_id := "", error := "" }

def c7Row : SessRow :=
  { session_id := 2, pair_id := "P", active := true,
    max_spread_bps := 10, max_trend_drop_bps := 10, max_slippage_bps := 10,
    preferred_chunk_bid := 50, max_bid_per_tick := 100,
    remaining_bid := 100, remaining_chunks := 5,
    in_flight_bid := 50, in_flight_chunks := 1,
    cooldown_until_ms := 0, quantum := 10, deficit := 0, last_served_ms := 0,
    has_pending_batch := true }

def c7DB : DB :=
  { sessions := [c7Row], batches := [⟨4, "P", 0, "RESERVED", ""⟩],
    items := [c7Item], next_id := 6 }

/-- The store after the sample SUCCESS chunk commit step. -/
def c7After : DB :=
  (commitChunk 9 4 2 c7DB ⟨5, .success "tx-1"⟩).toOption.getD c7DB

def c5Row : SessRow :=
  { session_id := 3, pair_id := "P", active := true,
    max_spread_bps := 10, max_trend_drop_bps := 10, max_slippage_bps := 10,
    preferred_chunk_bid := 50, max_bid_per_tick := 100,
    remaining_bid := 100, remaining_chunks := 5,
    in_flight_bid := 0, in_flight_chunks := 0,
    cooldown_until_ms := 0, quantum := 10, deficit := 0, last_served_ms := 0,
    has_pending_batch := false }

def c5Acc : RAcc := { sessions := [c5Row], new_items := [], users := [], any := false, next := 8 }

/-- An allocation naming a session id that is absent from the store: its
conditional update affects zero rows. -/
def c5MissAlloc : PlannedAllocation := { session_id := 9, total_bid := 10, chunks := [10] }

def c5DB : DB := { sessions := [c5Row], batches := [], items := [], next_id := 7 }

def c6Row : SessRow :=
  { session_id := 1, pair_id := "P", active := true,
    max_spread_bps := 10, max_trend_drop_bps := 10, max_slippage_bps := 10,
    preferred_chunk_bid := 50, max_bid_per_tick := 100,
    remaining_bid := 100, remaining_chunks := 5,
    in_flight_bid := 0, in_flight_chunks := 0,
    cooldown_until_ms := 0, quantum := 10, deficit := 0, last_served_ms := 0,
    has_pending_batch := false }

/-- A store whose only batch is already COMMITTED: a re-commit must be a
no-op. -/
def c6DB : DB :=
  { sessions := [c6Row],
    batches := [⟨4, "P", 0, "COMMITTED", ""⟩],
    items := [⟨5, 4, 1, 50, "SUCCESS", "tx-1", ""⟩],
    next_id := 6 }

def c6Batch : ReservedBatch := { batch_id := 4, pair_id := "P", created_ms := 0, users := [] }

def c2Row : SessRow :=
  { session_id := 1, pair_id := "P", active := true,
    max_spread_bps := 10, max_trend_drop_bps := 10, max_slippage_bps := 10,
    preferred_chunk_bid := 100, max_bid_per_tick := 1000,
    remaining_bid := 1000, remaining_chunks := 10,
    in_flight_bid := 0, in_flight_chunks := 0,
    cooldown_until_ms := 0, quantum := 100, deficit := 0, last_served_ms := 0,
    has_pending_batch := false }

def c2DB : DB := { sessions := [c2Row], batches := [], items := [], next_id := 20 }

def c2Alloc : PlannedAllocation := { session_id := 1, total_bid := 300, chunks := [100, 200] }

/-- The reserved batch and store produced by the c2 reservation. -/
def c2Res : Option ReservedBatch × DB :=
  (reserve_execution_checked c2DB "P" 5 [c2Alloc]).toOption.getD (none, c2DB)

/-- The reserved batch of the c2 reservation, written out. -/
def c2RBw : ReservedBatch := ⟨20, "P", 5, [⟨1, [⟨21, 100⟩, ⟨22, 200⟩]⟩]⟩

/-- The store after the c2 reservation, written out. -/
def c2DB1w : DB :=
  { sessions := [{ c2Row with
                   in_flight_bid := 300,
                   in_flight_chunks := 2,
                   has_pending_batch := true }],
    batches := [⟨20, "P", 5, "RESERVED", ""⟩],
    items := [⟨21, 20, 1, 100, "PENDING", "", ""⟩,
      ⟨22, 20, 1, 200, "PENDING", "", ""⟩],
    next_id := 23 }

def c3Row : SessRow :=
  { session_id := 1, pair_id := "P", active := true,
    max_spread_bps := 10, max_trend_drop_bps := 10, max_slippage_bps := 10,
    preferred_chunk_bid := 100, max_bid_per_tick := 1000,
    remaining_bid := 1000, remaining_chunks := 10,
    in_flight_bid := 200, in_flight_chunks := 2,
    cooldown_until_ms := 0, quantum := 100, deficit := 0, last_served_ms := 0,
    has_pending_batch := false }

def c3DB : DB := { sessions := [c3Row], batches := [], items := [], next_id := 1 }

/-! ## Accounting functions and store invariants used by the theorems -/

/-- Total bid of the `batch_items` rows owned by session `sid`. -/
def itemsBidSumFor (its : List ItemRow) (sid : Nat) : Int :=
  ((its.filter (fun it => it.session_id = sid)).map (fun it => it.bid)).sum

/-- Number of `batch_items` rows owned by session `sid`. -/
def itemsCntFor (its : List ItemRow) (sid : Nat) : Int :=
  ((its.filter (fun it => it.session_id = sid)).length : Int)

/-- Total bid of the PENDING `batch_items` rows owned by session `sid`. -/
def pendingBidSum (its : List ItemRow) (sid : Nat) : Int :=
  ((its.filter (fun it => it.session_id = sid ∧ it.status = "PENDING")).map
    (fun it => it.bid)).sum

/-- Number of PENDING `batch_items` rows owned by session `sid`. -/
def pendingCnt (its : List ItemRow) (sid : Nat) : Int :=
  ((its.filter (fun it => it.session_id = sid ∧ it.status = "PENDING")).length : Int)

/-- The store invariant: session ids are unique (the table's primary key),
item bids are non-negative (they are written through `u128_to_i64`), and for
every session the PENDING reservations recorded in `batch_items` are covered
by its `in_flight_*` counters, which in turn never exceed `remaining_*`. -/
def Inv (db : DB) : Prop :=
  (db.sessions.map (fun r => r.session_id)).Nodup
  ∧ (∀ it ∈ db.items, 0 ≤ it.bid)
  ∧ ∀ r ∈ db.sessions,
      pendingBidSum db.items r.session_id ≤ r.in_flight_bid
      ∧ r.in_flight_bid ≤ r.remaining_bid
      ∧ pendingCnt db.items r.session_id ≤ r.in_flight_chunks
      ∧ r.in_flight_chunks ≤ r.remaining_chunks

/-- Well-formedness of a commit payload against the store: every chunk result
is attributed to the session that owns the stored item row, exactly as the
executor worker constructs its `UserResult`s from the reserved batch. -/
def WFResults (its : List ItemRow) (batch_id : Nat) (results : List UserResult) :
    Prop :=
  ∀ ur ∈ results, ∀ cr ∈ ur.chunk_results, ∀ it ∈ its,
    it.batch_id = batch_id → it.chunk_id = cr.chunk_id →
    it.session_id = ur.session_id

/-- One repository operation: a reservation or a well-formed commit (an
operation that returns an error rolls back and does not change the store). -/
inductive Step : DB → DB → Prop
  | reserve (pair : String) (now_ms : Nat) (allocs : List PlannedAllocation)
      (out : Option ReservedBatch) (db db1 : DB) :
      reserve_execution db pair now_ms allocs = .ok (out, db1) → Step db db1
  | commit (now_ms : Nat) (batch : ReservedBatch) (results : List UserResult)
      (db db1 : DB) :
      WFResults db.items batch.batch_id results →
      commit_batch now_ms db batch results = .ok db1 → Step db db1

/-- Reachability by any sequence of reservations and well-formed commits. -/
def Reaches : DB → DB → Prop := Relation.ReflTransGen Step

/-- Loop invariant of the reservation transaction, relating the accumulator to
the sessions table at transaction start: every row is the original row with
the accumulated new PENDING items added to its in-flight counters and the
pending-batch flag set exactly for reserved users, the new items all belong to
the new batch, and every reserved user owns at least one new item. -/
def ResInv (sess0 : List SessRow) (batch_id : Nat) (acc : RAcc) : Prop :=
  List.Forall₂ (fun r r1 =>
    r1 = { r with
      in_flight_bid := r.in_flight_bid + itemsBidSumFor acc.new_items r.session_id,
      in_flight_chunks :=
        r.in_flight_chunks + itemsCntFor acc.new_items r.session_id,
      has_pending_batch := r.has_pending_batch
        || (acc.users.map (fun u => u.session_id)).contains r.session_id })
    sess0 acc.sessions
  ∧ (∀ it ∈ acc.new_items, it.batch_id = batch_id ∧ it.status = "PENDING"
      ∧ (acc.users.map (fun u => u.session_id)).contains it.session_id
      ∧ 0 ≤ it.bid)
  ∧ (∀ u ∈ acc.users, ∃ it ∈ acc.new_items, it.session_id = u.session_id)

/-- Loop invariant of the reservation transaction used for the accounting
bounds: session ids stay unique, freshly inserted items are non-negative
`PENDING` rows, and every session row of the working table covers the
`PENDING` items (old store items plus the new rows) within its `in_flight_*`
counters, which stay within `remaining_*`. -/
def AccInv (items0 : List ItemRow) (acc : RAcc) : Prop :=
  (acc.sessions.map (fun r => r.session_id)).Nodup
  ∧ (∀ it ∈ acc.new_items, 0 ≤ it.bid ∧ it.status = "PENDING")
  ∧ (∀ r ∈ acc.sessions,
      pendingBidSum (items0 ++ acc.new_items) r.session_id ≤ r.in_flight_bid
      ∧ r.in_flight_bid ≤ r.remaining_bid
      ∧ pendingCnt (items0 ++ acc.new_items) r.session_id ≤ r.in_flight_chunks
      ∧ r.in_flight_chunks ≤ r.remaining_chunks)

/-! ## Theorems -/

/-! ### Planner lemmas -/

theorem splitGo_sum_le (max_chunk min_chunk : Nat) :
    ∀ fuel rem, (splitGo max_chunk min_chunk fuel rem).sum ≤ rem := by
  intro fuel
  induction fuel with
  | zero => intro rem; simp [splitGo]
  | succ n ih =>
    intro rem
    by_cases h : rem < min_chunk
    · simp [splitGo, h]
    · simp only [splitGo, if_neg h, List.sum_cons]
      have h1 := ih (rem - min rem max_chunk)
      omega

theorem splitGo_mem_bounds (max_chunk min_chunk : Nat)
    (hmm : min_chunk ≤ max_chunk) :
    ∀ fuel rem c, c ∈ splitGo max_chunk min_chunk fuel rem →
      min_chunk ≤ c ∧ c ≤ max_chunk := by
  intro fuel
  induction fuel with
  | zero => intro rem c hc; simp [splitGo] at hc
  | succ n ih =>
    intro rem c hc
    by_cases h : rem < min_chunk
    · simp [splitGo, h] at hc
    · simp only [splitGo, if_neg h, List.mem_cons] at hc
      rcases hc with hc | hc
      · subst hc; constructor <;> omega
      · exact ih _ _ hc

theorem split_sum_le (total max_chunk min_chunk : Nat) :
    (split_into_chunks total max_chunk min_chunk).sum ≤ total := by
  unfold split_into_chunks
  by_cases h : total < min_chunk
  · simp [h]
  · simp only [if_neg h]
    exact splitGo_sum_le _ _ _ _

theorem split_mem_bounds (total max_chunk min_chunk : Nat)
    (hmm : min_chunk ≤ max_chunk) (c : Nat)
    (hc : c ∈ split_into_chunks total max_chunk min_chunk) :
    min_chunk ≤ c ∧ c ≤ max_chunk := by
  unfold split_into_chunks at hc
  by_cases h : total < min_chunk
  · simp [h] at hc
  · simp only [if_neg h] at hc
    exact splitGo_mem_bounds _ _ hmm _ _ _ hc

theorem planGo_facts (policy : SizingPolicy)
    (hmm : policy.min_chunk_bid ≤ policy.max_chunk_bid) :
    ∀ (l : List PlannerUserIntent) (budget : Nat),
      ((planGo policy l budget).map (fun a => a.total_bid)).sum ≤ budget
      ∧ (∀ a ∈ planGo policy l budget,
          (∀ c ∈ a.chunks, policy.min_chunk_bid ≤ c ∧ c ≤ policy.max_chunk_bid)
          ∧ a.total_bid ≤ policy.max_bid_per_user_per_tick
          ∧ a.total_bid = a.chunks.sum) := by
  intro l
  induction l with
  | nil => intro budget; simp [planGo]
  | cons u rest ih =>
    intro budget
    unfold planGo
    by_cases h0 : budget < policy.min_chunk_bid
    · simp [h0]
    rw [if_neg h0]
    by_cases h1 : u.desired_bid < policy.min_chunk_bid
    · simpa [h1] using ih budget
    rw [if_neg h1]
    by_cases h2 : min u.desired_bid (min policy.max_bid_per_user_per_tick budget)
        < policy.min_chunk_bid
    · simpa [h2] using ih budget
    rw [if_neg h2]
    by_cases h3 : (split_into_chunks
        (min u.desired_bid (min policy.max_bid_per_user_per_tick budget))
        policy.max_chunk_bid policy.min_chunk_bid).isEmpty
    · simpa [h3] using ih budget
    rw [if_neg h3]
    set allow := min u.desired_bid (min policy.max_bid_per_user_per_tick budget) with hallow
    set chunks := split_into_chunks allow policy.max_chunk_bid policy.min_chunk_bid
      with hchunks
    have hsum_le : chunks.sum ≤ allow := split_sum_le _ _ _
    have hallow_le_budget : allow ≤ budget := by omega
    have hallow_le_user : allow ≤ policy.max_bid_per_user_per_tick := by omega
    have ihrest := ih (budget - chunks.sum)
    constructor
    · simp only [List.map_cons, List.sum_cons]
      have := ihrest.1
      omega
    · intro a ha
      rcases List.mem_cons.mp ha with ha | ha
      · subst ha
        refine ⟨fun c hc => split_mem_bounds _ _ _ hmm c hc, ?_, rfl⟩
        exact le_trans hsum_le hallow_le_user
      · exact ihrest.2 a ha

/-! ### C8 -/

set_option maxRecDepth 4000 in
/-- C8 counterexample: with the sizing policy `min_chunk_bid = 5`,
`max_chunk_bid = 3` (the claim quantifies over every sizing policy), the plan
for a single intent of 10 contains chunks of size 3, which do not lie in
`[min_chunk_bid, max_chunk_bid]`.  The claim as stated is therefore false. -/
theorem c8_chunk_bounds_counterexample :
    derive_execution_plan 1000 [⟨7, 10, 1⟩] c8BadPolicy = [⟨7, 6, [3, 3]⟩]
    ∧ ¬ (∀ a ∈ derive_execution_plan 1000 [⟨7, 10, 1⟩] c8BadPolicy,
          ∀ c ∈ a.chunks,
            c8BadPolicy.min_chunk_bid ≤ c ∧ c ≤ c8BadPolicy.max_chunk_bid) := by
  constructor
  · rfl
  · decide

/-- C8 (amended): for every depth cap, intent list, and sizing policy with
`min_chunk_bid ≤ max_chunk_bid` (as the interval notation of the claim
presupposes; the source also fails to terminate when a zero-sized chunk is
possible), the derived plan allocates at most
`min(depth_cap, hard_max_total_bid_per_tick)` in total, every chunk lies in
`[min_chunk_bid, max_chunk_bid]`, each allocation's `total_bid` is at most
`max_bid_per_user_per_tick`, and each `total_bid` equals the sum of its
chunks. -/
theorem c8_plan_invariants (depth_cap : Nat) (intents : List PlannerUserIntent)
    (policy : SizingPolicy)
    (hmm : policy.min_chunk_bid ≤ policy.max_chunk_bid) :
    ((derive_execution_plan depth_cap intents policy).map
        (fun a => a.total_bid)).sum
      ≤ min depth_cap policy.hard_max_total_bid_per_tick
    ∧ (∀ a ∈ derive_execution_plan depth_cap intents policy,
        ∀ c ∈ a.chunks, policy.min_chunk_bid ≤ c ∧ c ≤ policy.max_chunk_bid)
    ∧ (∀ a ∈ derive_execution_plan depth_cap intents policy,
        a.total_bid ≤ policy.max_bid_per_user_per_tick)
    ∧ (∀ a ∈ derive_execution_plan depth_cap intents policy,
        a.total_bid = a.chunks.sum) := by
  unfold derive_execution_plan
  by_cases h0 : intents.isEmpty
  · simp [h0]
  rw [if_neg h0]
  by_cases h1 : min depth_cap policy.hard_max_total_bid_per_tick
      < policy.min_chunk_bid
  · simp [h1]
  rw [if_neg h1]
  have hf := planGo_facts policy hmm intents
    (min depth_cap policy.hard_max_total_bid_per_tick)
  exact ⟨hf.1, fun a ha => (hf.2 a ha).1, fun a ha => (hf.2 a ha).2.1,
    fun a ha => (hf.2 a ha).2.2⟩

set_option maxRecDepth 4000 in
/-- C8 witness: the amended invariants evaluated at a concrete well-formed
policy. -/
theorem c8_plan_invariants_witness :
    c8GoodPolicy.min_chunk_bid ≤ c8GoodPolicy.max_chunk_bid
    ∧ (((derive_execution_plan 1000 [⟨1, 250, 1⟩] c8GoodPolicy).map
          (fun a => a.total_bid)).sum
        ≤ min 1000 c8GoodPolicy.hard_max_total_bid_per_tick
      ∧ (∀ a ∈ derive_execution_plan 1000 [⟨1, 250, 1⟩] c8GoodPolicy,
          ∀ c ∈ a.chunks,
            c8GoodPolicy.min_chunk_bid ≤ c ∧ c ≤ c8GoodPolicy.max_chunk_bid)
      ∧ (∀ a ∈ derive_execution_plan 1000 [⟨1, 250, 1⟩] c8GoodPolicy,
          a.total_bid ≤ c8GoodPolicy.max_bid_per_user_per_tick)
      ∧ (∀ a ∈ derive_execution_plan 1000 [⟨1, 250, 1⟩] c8GoodPolicy,
          a.total_bid = a.chunks.sum)) :=
  ⟨by decide, c8_plan_invariants 1000 [⟨1, 250, 1⟩] c8GoodPolicy (by decide)⟩

/-! ### C1 -/

set_option maxRecDepth 4000 in
/-- C1: the code violates the claim.  `pick_intents` performs no Gate A check
(its market parameter is unused) and none of the
`active ∧ cooldown_until_ms ≤ now_ms ∧ ¬has_pending_batch ∧ available_chunks > 0`
eligibility filters: a cached candidate that is inactive, cooling down until
9999 ms (`now_ms = 1000`), and has `has_pending_batch = true` is nevertheless
selected and an intent is emitted for it. -/
theorem c1_pending_inactive_session_selected :
    (pick_intents ⟨5000, 64, [c1Session], [0]⟩ 5 1 1000).out = [⟨0, 100, 1⟩]
    ∧ c1Session.state.has_pending_batch = true
    ∧ c1Session.active = false
    ∧ c1Session.state.cooldown_until_ms = 9999 := by
  refine ⟨by rfl, by rfl, by rfl, by rfl⟩

/-! ### C9 -/

set_option maxRecDepth 4000 in
/-- C9: the code violates the claim.  One `pick_intents` call is one tick.
With a single cached candidate (`quantum = 1`, `preferred_chunk_bid = 100`,
initial `deficit = 0`) and `max_attempts = 5`, the session is rotated back to
the scheduler five times within the single tick and `accumulate_credit` runs
on every rotation: the cached deficit afterwards is 5, although at most one
accumulation per session per tick would leave it at
`min(0 + 1, 2 * 100) = 1`.  No intent is emitted (the charge never happens),
so the accumulations are not once-per-selection either. -/
theorem c9_credit_accumulated_five_times_in_one_tick :
    ((pick_intents ⟨5000, 64, [c9Session], [0]⟩ 5 1 1000).cache.get 0).map
        (fun s => s.state.deficit) = some 5
    ∧ (pick_intents ⟨5000, 64, [c9Session], [0]⟩ 5 1 1000).out = []
    ∧ c9Session.state.deficit = 0
    ∧ c9Session.state.quantum = 1 := by
  refine ⟨by rfl, by rfl, by rfl, by rfl⟩

/-! ### C4 -/

set_option maxRecDepth 8000 in
/-- C4: the code violates the claim on any batch whose user has more than one
chunk.  With no market snapshot, the worker marks the first chunk SKIPPED
(`GATE_B_CONSTRAINTS`) and then `break`s out of the user's chunk loop, so the
second chunk gets no result at all: after `commit_batch` it is still
`PENDING`, and the session's `in_flight_bid` is 200 (the second chunk's bid),
not its pre-reservation value 0.  The swap executor is indeed never invoked
(call count 0) and `remaining_*` are unchanged. -/
theorem c4_missing_snapshot_leaves_second_chunk_pending :
    (c4Run.toOption.map (fun p => p.1)) = some 0
    ∧ (c4Run.toOption.map (fun p => p.2.items.map (fun it => it.status)))
      = some ["SKIPPED", "PENDING"]
    ∧ (c4Run.toOption.map (fun p => p.2.sessions.map (fun r =>
        (r.in_flight_bid, r.in_flight_chunks, r.remaining_bid,
          r.remaining_chunks))))
      = some [(200, 1, 1000, 10)]
    ∧ c4Row.in_flight_bid = 0 := by
  refine ⟨by rfl, by rfl, by rfl, by rfl⟩

/-! ### C10 -/

/-- C10 counterexample: the warm-up sentinel the pulses return is `f64::MAX`
(embedded exactly as `F64MAX`), not `+∞`.  `f64::MAX` is itself a finite
`f64`, so a user threshold equal to it is a finite threshold against which the
comparison `bps ≤ threshold` succeeds during warm-up — the claim that every
such comparison fails is false. -/
theorem c10_sentinel_not_infinite :
    (compute_spread_pulse 0 100 50 RollingWindow.new ⟨10, 5000⟩).1.validity
      = .Invalid
    ∧ (compute_spread_pulse 0 100 50 RollingWindow.new ⟨10, 5000⟩).1.spread_bps
      ≤ F64MAX := by
  have h : (compute_spread_pulse 0 100 50 RollingWindow.new
      ⟨10, 5000⟩).1.spread_bps = F64MAX := by rfl
  exact ⟨by rfl, by rw [h]⟩

/-- C10 (amended): for the spread, trend and depth pulses, whenever the
rolling window after the push is not warm (fewer than `min_samples` entries or
a latest-minus-oldest span below `min_age_ms`), the result is `Invalid` and
the bps field carries `f64::MAX` (the largest finite `f64`), so every
comparison `bps ≤ threshold` against a threshold strictly below `f64::MAX`
fails. -/
theorem c10_warmup_invalid_sentinel :
    (∀ (ts : Nat) (bid ask : Rat) (w : RollingWindow) (wu : SpreadWarmup),
      ((w.push ts (ask / bid)).isWarm wu.min_samples wu.min_age_ms) = false →
        (compute_spread_pulse ts bid ask w wu).1.validity = .Invalid
        ∧ (compute_spread_pulse ts bid ask w wu).1.spread_bps = F64MAX
        ∧ ∀ t : Rat, t < F64MAX →
            ¬ (compute_spread_pulse ts bid ask w wu).1.spread_bps ≤ t)
    ∧ (∀ (ts : Nat) (bid ask : Rat) (w : RollingWindow) (wt : TrendWarmup),
      ((w.push ts (ask / bid)).isWarm wt.min_samples wt.min_age_ms) = false →
        (compute_trend ts bid ask w wt).1.validity = .Invalid
        ∧ (compute_trend ts bid ask w wt).1.trend_drop_bps = F64MAX
        ∧ ∀ t : Rat, t < F64MAX →
            ¬ (compute_trend ts bid ask w wt).1.trend_drop_bps ≤ t)
    ∧ (∀ (ts : Nat) (dnow : Option Nat) (dw : DepthWindow),
      ((({ dw with max_age_ms := 30000 } : DepthWindow).push ts
          (dnow.getD 0)).isWarm 10 5000) = false →
        (compute_depth_pulse ts dnow dw).1.validity = .Invalid
        ∧ (compute_depth_pulse ts dnow dw).1.depth_deficit_bps = F64MAX
        ∧ ∀ t : Rat, t < F64MAX →
            ¬ (compute_depth_pulse ts dnow dw).1.depth_deficit_bps ≤ t) := by
  refine ⟨?_, ?_, ?_⟩
  · intro ts bid ask w wu hwarm
    have hres : (compute_spread_pulse ts bid ask w wu).1.validity = .Invalid
        ∧ (compute_spread_pulse ts bid ask w wu).1.spread_bps = F64MAX := by
      unfold compute_spread_pulse
      by_cases hb : bid ≤ 0
      · simp [hb, SpreadPulseResult.default]
      · simp [hb, hwarm]
    exact ⟨hres.1, hres.2, fun t ht hle => absurd hle (by rw [hres.2]; exact not_le.mpr ht)⟩
  · intro ts bid ask w wt hwarm
    have hres : (compute_trend ts bid ask w wt).1.validity = .Invalid
        ∧ (compute_trend ts bid ask w wt).1.trend_drop_bps = F64MAX := by
      unfold compute_trend
      by_cases hb : bid ≤ 0
      · simp [hb, TrendPulseResult.default]
      · simp [hb, hwarm]
    exact ⟨hres.1, hres.2, fun t ht hle => absurd hle (by rw [hres.2]; exact not_le.mpr ht)⟩
  · intro ts dnow dw hwarm
    have hres : (compute_depth_pulse ts dnow dw).1.validity = .Invalid
        ∧ (compute_depth_pulse ts dnow dw).1.depth_deficit_bps = F64MAX := by
      unfold compute_depth_pulse
      match dnow with
      | none => simp
      | some v =>
        by_cases hv : v > 0
        · simp only [Option.getD_some] at hwarm
          simp [hv, hwarm]
        · simp [hv]
    exact ⟨hres.1, hres.2, fun t ht hle => absurd hle (by rw [hres.2]; exact not_le.mpr ht)⟩

/-- C10 witness: the amended statement applied to concrete cold windows for
all three pulses. -/
theorem c10_warmup_invalid_sentinel_witness :
    ((RollingWindow.new.push 0 ((50 : Rat) / 100)).isWarm 10 5000) = false
    ∧ ((compute_spread_pulse 0 100 50 RollingWindow.new ⟨10, 5000⟩).1.validity
        = .Invalid
      ∧ (compute_spread_pulse 0 100 50 RollingWindow.new ⟨10, 5000⟩).1.spread_bps
        = F64MAX
      ∧ ∀ t : Rat, t < F64MAX →
          ¬ (compute_spread_pulse 0 100 50 RollingWindow.new
              ⟨10, 5000⟩).1.spread_bps ≤ t)
    ∧ ((compute_trend 0 100 50 RollingWindow.new ⟨10, 5000⟩).1.validity
        = .Invalid
      ∧ (compute_trend 0 100 50 RollingWindow.new ⟨10, 5000⟩).1.trend_drop_bps
        = F64MAX)
    ∧ ((compute_depth_pulse 0 (some 5) ⟨[], [], 0⟩).1.validity = .Invalid
      ∧ (compute_depth_pulse 0 (some 5) ⟨[], [], 0⟩).1.depth_deficit_bps
        = F64MAX) := by
  have hs := c10_warmup_invalid_sentinel.1 0 100 50 RollingWindow.new ⟨10, 5000⟩
    (by decide)
  have ht := c10_warmup_invalid_sentinel.2.1 0 100 50 RollingWindow.new
    ⟨10, 5000⟩ (by decide)
  have hd := c10_warmup_invalid_sentinel.2.2 0 (some 5) ⟨[], [], 0⟩ (by decide)
  exact ⟨by decide, hs, ⟨ht.1, ht.2.1⟩, ⟨hd.1, hd.2.1⟩⟩

/-! ### Generic list/fold helpers -/

theorem forall2_map_self {α : Type} {l : List α} {f : α → α} {R : α → α → Prop}
    (h : ∀ x ∈ l, R x (f x)) : List.Forall₂ R l (l.map f) := by
  induction l with
  | nil => simp
  | cons a t ih =>
    simp only [List.map_cons, List.forall₂_cons]
    exact ⟨h a (by simp), ih (fun x hx => h x (by simp [hx]))⟩

theorem except_bind_ok {β γ : Type} (x : β) (g : β → Except String γ) :
    (Except.ok x >>= g) = g x := rfl

theorem except_bind_error {β γ : Type} (e : String) (g : β → Except String γ) :
    ((Except.error e : Except String β) >>= g) = Except.error e := rfl

theorem foldlM_ok_preserve {α : Type} (P : DB → Prop)
    (step : DB → α → Except String DB) :
    ∀ (l : List α) (s s1 : DB),
      (∀ t x, x ∈ l → P t → ∀ t1, step t x = .ok t1 → P t1) →
      P s → l.foldlM step s = .ok s1 → P s1 := by
  intro l
  induction l with
  | nil =>
    intro s s1 _ hP hfold
    simp only [List.foldlM_nil] at hfold
    have hss : s = s1 := by
      have h2 : (Except.ok s : Except String DB) = Except.ok s1 := hfold
      injection h2
    rw [← hss]; exact hP
  | cons a t ih =>
    intro s s1 hstep hP hfold
    rw [List.foldlM_cons] at hfold
    cases hsa : step s a with
    | error e =>
      rw [hsa, except_bind_error] at hfold
      exact absurd hfold (by simp)
    | ok s2 =>
      rw [hsa, except_bind_ok] at hfold
      exact ih s2 s1 (fun u x hx => hstep u x (by simp [hx]))
        (hstep s a (by simp) hP s2 hsa) hfold

/-! ### C7 -/

set_option maxRecDepth 4000 in
/-- C7: in `commit_batch`, for a chunk whose stored row is still `PENDING`
(with stored bid `it.bid`), the per-chunk step leaves every session row other
than the owning one untouched; on SUCCESS the owning row's `remaining_bid`
drops by exactly `it.bid`, `remaining_chunks` by 1, and `in_flight_bid` /
`in_flight_chunks` by the same amounts; on FAILED or SKIPPED only
`in_flight_bid` / `in_flight_chunks` drop, with `remaining_*` unchanged. -/
theorem c7_commit_chunk_effects (now_i64 : Int) (batch_id sid : Nat) (db : DB)
    (cr : ChunkResult) (it : ItemRow)
    (hfind : findItem db.items batch_id cr.chunk_id = some it)
    (hpend : it.status = "PENDING") (db1 : DB)
    (hrun : commitChunk now_i64 batch_id sid db cr = .ok db1) :
    ((∃ tx_id, cr.status = .success tx_id) →
        List.Forall₂ (fun r r1 =>
          if r.session_id = sid then
            r1.remaining_bid = r.remaining_bid - it.bid
            ∧ r1.remaining_chunks = r.remaining_chunks - 1
            ∧ r1.in_flight_bid = r.in_flight_bid - it.bid
            ∧ r1.in_flight_chunks = r.in_flight_chunks - 1
          else r1 = r) db.sessions db1.sessions)
    ∧ ((∃ reason, cr.status = .failed reason ∨ cr.status = .skipped reason) →
        List.Forall₂ (fun r r1 =>
          if r.session_id = sid then
            r1.remaining_bid = r.remaining_bid
            ∧ r1.remaining_chunks = r.remaining_chunks
            ∧ r1.in_flight_bid = r.in_flight_bid - it.bid
            ∧ r1.in_flight_chunks = r.in_flight_chunks - 1
          else r1 = r) db.sessions db1.sessions) := by
  have hnp : ¬ it.status ≠ "PENDING" := by simp [hpend]
  unfold commitChunk at hrun
  rw [hfind] at hrun
  simp only [hnp, if_false] at hrun
  cases hst : cr.status with
  | success tx_id =>
    rw [hst] at hrun
    have hdb1 := Except.ok.inj hrun
    constructor
    · intro _
      rw [← hdb1]
      apply forall2_map_self
      intro r _
      by_cases hr : r.session_id = sid <;> simp [updateSessions, hr]
    · intro hcontr
      rcases hcontr with ⟨reason, h | h⟩ <;> exact absurd h (by simp)
  | failed reason =>
    rw [hst] at hrun
    have hdb1 := Except.ok.inj hrun
    constructor
    · intro hcontr
      rcases hcontr with ⟨tx_id, h⟩
      exact absurd h (by simp)
    · intro _
      rw [← hdb1]
      apply forall2_map_self
      intro r _
      by_cases hr : r.session_id = sid <;> simp [updateSessions, hr]
  | skipped reason =>
    rw [hst] at hrun
    have hdb1 := Except.ok.inj hrun
    constructor
    · intro hcontr
      rcases hcontr with ⟨tx_id, h⟩
      exact absurd h (by simp)
    · intro _
      rw [← hdb1]
      apply forall2_map_self
      intro r _
      by_cases hr : r.session_id = sid <;> simp [updateSessions, hr]

/-- C7 witness: the per-chunk effects evaluated on a concrete store with one
PENDING chunk of bid 50 committed as SUCCESS. -/
theorem c7_commit_chunk_effects_witness :
    findItem c7DB.items 4 5 = some c7Item
    ∧ c7Item.status = "PENDING"
    ∧ commitChunk 9 4 2 c7DB ⟨5, .success "tx-1"⟩ = .ok c7After
    ∧ (((∃ tx_id, (ChunkResult.mk 5 (.success "tx-1")).status = .success tx_id) →
        List.Forall₂ (fun r r1 =>
          if r.session_id = 2 then
            r1.remaining_bid = r.remaining_bid - c7Item.bid
            ∧ r1.remaining_chunks = r.remaining_chunks - 1
            ∧ r1.in_flight_bid = r.in_flight_bid - c7Item.bid
            ∧ r1.in_flight_chunks = r.in_flight_chunks - 1
          else r1 = r) c7DB.sessions c7After.sessions)
      ∧ ((∃ reason, (ChunkResult.mk 5 (.success "tx-1")).status = .failed reason
            ∨ (ChunkResult.mk 5 (.success "tx-1")).status = .skipped reason) →
        List.Forall₂ (fun r r1 =>
          if r.session_id = 2 then
            r1.remaining_bid = r.remaining_bid
            ∧ r1.remaining_chunks = r.remaining_chunks
            ∧ r1.in_flight_bid = r.in_flight_bid - c7Item.bid
            ∧ r1.in_flight_chunks = r.in_flight_chunks - 1
          else r1 = r) c7DB.sessions c7After.sessions)) :=
  ⟨rfl, rfl, rfl,
    c7_commit_chunk_effects 9 4 2 c7DB ⟨5, .success "tx-1"⟩ c7Item rfl rfl c7After rfl⟩

/-! ### C5 -/

theorem insertChunks_ok (batch_id sid : Nat) :
    ∀ (chunks : List Nat) (next : Nat),
      (∀ c ∈ chunks, (c : Int) ≤ I64MAX) →
      ∃ out, insertChunks batch_id sid chunks next = .ok out := by
  intro chunks
  induction chunks with
  | nil => intro next _; exact ⟨_, rfl⟩
  | cons c rest ih =>
    intro next hb
    have hc : ¬ ((c : Int) > I64MAX) := by
      have := hb c (by simp)
      omega
    rcases ih (next + 1) (fun x hx => hb x (by simp [hx])) with ⟨⟨cs, its, nx⟩, hout⟩
    refine ⟨(⟨next, c⟩ :: cs, ⟨next, batch_id, sid, (c : Int), "PENDING", "", ""⟩ :: its, nx), ?_⟩
    have htb : u128_to_i64 c = .ok (c : Int) := by
      unfold u128_to_i64; rw [if_neg hc]
    unfold insertChunks
    rw [htb, hout]

/-- C5: `reserve_execution` reserves an allocation exactly when its
conditional `UPDATE` affects one row (the row satisfies `reserveCond`: id and
pair match, active, no pending batch, and `remaining - in_flight` covers the
requested bid sum and chunk count); a zero-row CAS miss is skipped silently —
the step still succeeds, appends no user and no items, and with zero affected
rows leaves the sessions untouched; and when no allocation succeeds the whole
call returns `none` with the store exactly as before (rollback: no `batches`
or `batch_items` rows persisted). -/
theorem c5_reserve_cas_semantics :
    (∀ (pair : String) (now_ms batch_id : Nat) (acc : RAcc)
        (a : PlannedAllocation) (acc1 : RAcc),
      reserveAlloc pair now_ms batch_id acc a = .ok acc1 →
        ((acc1.users.length = acc.users.length + 1) ↔
          (acc.sessions.filter (fun r =>
            reserveCond r a.session_id pair (a.chunks.sum : Int)
              (a.chunks.length : Int))).length = 1))
    ∧ (∀ (pair : String) (now_ms batch_id : Nat) (acc : RAcc)
        (a : PlannedAllocation) (acc1 : RAcc),
      reserveAlloc pair now_ms batch_id acc a = .ok acc1 →
        (acc.sessions.filter (fun r =>
          reserveCond r a.session_id pair (a.chunks.sum : Int)
            (a.chunks.length : Int))).length ≠ 1 →
        acc1.users = acc.users ∧ acc1.new_items = acc.new_items
        ∧ acc1.any = acc.any
        ∧ ((acc.sessions.filter (fun r =>
            reserveCond r a.session_id pair (a.chunks.sum : Int)
              (a.chunks.length : Int))).length = 0 →
            acc1.sessions = acc.sessions))
    ∧ (∀ (db : DB) (pair : String) (now_ms : Nat)
        (allocs : List PlannedAllocation) (db1 : DB),
      reserve_execution db pair now_ms allocs = .ok (none, db1) → db1 = db) := by
  have hstep : ∀ (pair : String) (now_ms batch_id : Nat) (acc : RAcc)
      (a : PlannedAllocation) (acc1 : RAcc),
      reserveAlloc pair now_ms batch_id acc a = .ok acc1 →
      ¬ ((a.chunks.sum : Int) > I64MAX) := by
    intro pair now_ms batch_id acc a acc1 hrun hgt
    have hconv : u128_to_i64 a.chunks.sum = .error "u128 too large for i64" := by
      unfold u128_to_i64; rw [if_pos hgt]
    unfold reserveAlloc at hrun
    rw [hconv] at hrun
    exact absurd hrun (by simp)
  refine ⟨?_, ?_, ?_⟩
  · intro pair now_ms batch_id acc a acc1 hrun
    have hle := hstep pair now_ms batch_id acc a acc1 hrun
    have htb : u128_to_i64 a.chunks.sum = .ok (a.chunks.sum : Int) := by
      unfold u128_to_i64; rw [if_neg hle]
    unfold reserveAlloc at hrun
    rw [htb] at hrun
    simp only [u32_to_i64] at hrun
    by_cases hcnt : (acc.sessions.filter (fun r =>
        reserveCond r a.session_id pair (a.chunks.sum : Int)
          (a.chunks.length : Int))).length = 1
    · rw [if_neg (by omega)] at hrun
      have hall : ∀ c ∈ a.chunks, (c : Int) ≤ I64MAX := by
        intro c hc
        have h1 : c ≤ a.chunks.sum :=
          List.single_le_sum (fun x _ => Nat.zero_le x) c hc
        have h2 : (c : Int) ≤ (a.chunks.sum : Int) := by exact_mod_cast h1
        omega
      rcases insertChunks_ok batch_id a.session_id a.chunks acc.next hall
        with ⟨⟨cs, its, nx⟩, hic⟩
      cases hany : acc.any with
      | true =>
        rw [hany] at hrun
        simp only [if_true] at hrun
        rw [hic] at hrun
        have := Except.ok.inj hrun
        rw [← this]
        exact iff_of_true (by simp) hcnt
      | false =>
        rw [hany] at hrun
        simp only [Bool.false_eq_true, if_false] at hrun
        cases hnow : u64_to_i64 now_ms with
        | error e =>
          rw [hnow] at hrun
          exact absurd hrun (by simp)
        | ok v =>
          rw [hnow] at hrun
          rw [hic] at hrun
          have := Except.ok.inj hrun
          rw [← this]
          exact iff_of_true (by simp) hcnt
    · rw [if_pos (by simpa using hcnt)] at hrun
      have := Except.ok.inj hrun
      rw [← this]
      exact iff_of_false (by simp) hcnt
  · intro pair now_ms batch_id acc a acc1 hrun hcnt
    have hle := hstep pair now_ms batch_id acc a acc1 hrun
    have htb : u128_to_i64 a.chunks.sum = .ok (a.chunks.sum : Int) := by
      unfold u128_to_i64; rw [if_neg hle]
    unfold reserveAlloc at hrun
    rw [htb] at hrun
    simp only [u32_to_i64] at hrun
    rw [if_pos (by simpa using hcnt)] at hrun
    have hacc1 := Except.ok.inj hrun
    rw [← hacc1]
    refine ⟨rfl, rfl, rfl, ?_⟩
    intro h0
    have hnone : ∀ r ∈ acc.sessions,
        ¬ (reserveCond r a.session_id pair (a.chunks.sum : Int)
            (a.chunks.length : Int) = true) := by
      intro r hr hcond
      have hmem : r ∈ acc.sessions.filter (fun r =>
          reserveCond r a.session_id pair (a.chunks.sum : Int)
            (a.chunks.length : Int)) := List.mem_filter.mpr ⟨hr, hcond⟩
      rw [List.length_eq_zero] at h0
      rw [h0] at hmem
      exact absurd hmem (by simp)
    show acc.sessions.map _ = acc.sessions
    calc acc.sessions.map (fun r =>
          if reserveCond r a.session_id pair (a.chunks.sum : Int)
              (a.chunks.length : Int) = true
          then reserveSet (a.chunks.sum : Int) (a.chunks.length : Int) r else r)
        = acc.sessions.map (fun r => r) := by
          apply List.map_congr_left
          intro r hr
          rw [if_neg (hnone r hr)]
      _ = acc.sessions := List.map_id _
  · intro db pair now_ms allocs db1 hrun
    unfold reserve_execution at hrun
    cases hloop : reserveLoop pair now_ms db.next_id allocs
        ⟨db.sessions, [], [], false, db.next_id + 1⟩ with
    | error e =>
      simp only [hloop] at hrun
      exact absurd hrun (by simp)
    | ok acc =>
      simp only [hloop] at hrun
      cases hany : acc.any with
      | false =>
        rw [if_pos hany] at hrun
        have := Except.ok.inj hrun
        exact ((Prod.mk.injEq _ _ _ _).mp this).2.symm
      | true =>
        rw [if_neg (by simp [hany])] at hrun
        cases hnow : u64_to_i64 now_ms with
        | error e =>
          rw [hnow] at hrun
          exact absurd hrun (by simp)
        | ok v =>
          rw [hnow] at hrun
          have := Except.ok.inj hrun
          exact absurd ((Prod.mk.injEq _ _ _ _).mp this).1 (by simp)

/-- C5 witness: a CAS miss on a concrete store (the allocation names a session
absent from the store, zero rows affected, result still ok and unchanged), and
a whole-call rollback returning `none` with the store untouched. -/
theorem c5_reserve_cas_semantics_witness :
    (∃ acc1, reserveAlloc "P" 5 7 c5Acc c5MissAlloc = .ok acc1
      ∧ acc1.users = c5Acc.users ∧ acc1.new_items = c5Acc.new_items
      ∧ acc1.any = c5Acc.any ∧ acc1.sessions = c5Acc.sessions)
    ∧ reserve_execution c5DB "P" 5 [c5MissAlloc] = .ok (none, c5DB)
    ∧ c5DB = c5DB := by
  have hrun : reserveAlloc "P" 5 7 c5Acc c5MissAlloc
      = .ok { c5Acc with sessions := c5Acc.sessions.map (fun r =>
          if reserveCond r c5MissAlloc.session_id "P" (c5MissAlloc.chunks.sum : Int)
              (c5MissAlloc.chunks.length : Int) then
            reserveSet (c5MissAlloc.chunks.sum : Int)
              (c5MissAlloc.chunks.length : Int) r
          else r) } := by rfl
  have hmain := c5_reserve_cas_semantics.2.1 "P" 5 7 c5Acc c5MissAlloc _ hrun
    (by decide)
  have hroll := c5_reserve_cas_semantics.2.2 c5DB "P" 5 [c5MissAlloc] c5DB (by rfl)
  exact ⟨⟨_, hrun, (hmain).1, (hmain).2.1, (hmain).2.2.1,
    (hmain).2.2.2 (by decide)⟩, by rfl, hroll ▸ rfl⟩

/-! ### C6 -/

theorem commitCooldown_frame (now_ms : Nat) (db : DB) (ur : UserResult) (db1 : DB)
    (h : commitCooldown now_ms db ur = .ok db1) :
    db1.batches = db.batches ∧ db1.items = db.items ∧ db1.next_id = db.next_id := by
  unfold commitCooldown at h
  cases hc : ur.cooldown_ms with
  | none =>
    simp only [hc] at h
    have := Except.ok.inj h
    rw [← this]; exact ⟨rfl, rfl, rfl⟩
  | some cd =>
    simp only [hc] at h
    cases hu : u64_to_i64 (satAddU64 now_ms cd) with
    | error e => rw [hu] at h; exact absurd h (by simp)
    | ok v =>
      rw [hu] at h
      have := Except.ok.inj h
      rw [← this]; exact ⟨rfl, rfl, rfl⟩

theorem commitChunk_shape (now_i64 : Int) (batch_id sid : Nat) (db : DB)
    (cr : ChunkResult) (db1 : DB)
    (h : commitChunk now_i64 batch_id sid db cr = .ok db1) :
    db1.batches = db.batches ∧ db1.next_id = db.next_id
    ∧ (db1.items = db.items
      ∨ ∃ it, findItem db.items batch_id cr.chunk_id = some it
          ∧ it.status = "PENDING"
          ∧ ∃ f : ItemRow → ItemRow,
              (∀ x, (f x).chunk_id = x.chunk_id ∧ (f x).batch_id = x.batch_id
                ∧ (f x).session_id = x.session_id ∧ (f x).bid = x.bid
                ∧ (f x).status ≠ "PENDING")
              ∧ db1.items = updateItems db.items batch_id cr.chunk_id f) := by
  unfold commitChunk at h
  cases hfind : findItem db.items batch_id cr.chunk_id with
  | none =>
    simp only [hfind] at h
    exact absurd h (by simp)
  | some it =>
    simp only [hfind] at h
    by_cases hp : it.status ≠ "PENDING"
    · rw [if_pos hp] at h
      have := Except.ok.inj h
      rw [← this]; exact ⟨rfl, rfl, Or.inl rfl⟩
    · rw [if_neg hp] at h
      push_neg at hp
      cases hst : cr.status with
      | success tx_id =>
        rw [hst] at h
        have hdb1 := Except.ok.inj h
        rw [← hdb1]
        refine ⟨rfl, rfl, Or.inr ⟨it, rfl, hp, _, ?_, rfl⟩⟩
        intro x
        exact ⟨rfl, rfl, rfl, rfl, by simp⟩
      | failed reason =>
        rw [hst] at h
        have hdb1 := Except.ok.inj h
        rw [← hdb1]
        refine ⟨rfl, rfl, Or.inr ⟨it, rfl, hp, _, ?_, rfl⟩⟩
        intro x
        exact ⟨rfl, rfl, rfl, rfl, by simp⟩
      | skipped reason =>
        rw [hst] at h
        have hdb1 := Except.ok.inj h
        rw [← hdb1]
        refine ⟨rfl, rfl, Or.inr ⟨it, rfl, hp, _, ?_, rfl⟩⟩
        intro x
        exact ⟨rfl, rfl, rfl, rfl, by simp⟩

theorem updateItems_map_key (its : List ItemRow) (b c : Nat) (f : ItemRow → ItemRow)
    (hf : ∀ x, (f x).chunk_id = x.chunk_id) :
    (updateItems its b c f).map (fun it => it.chunk_id)
      = its.map (fun it => it.chunk_id) := by
  unfold updateItems
  rw [List.map_map]
  apply List.map_congr_left
  intro x _
  by_cases hx : x.batch_id = b ∧ x.chunk_id = c
  · simp [hx, hf]
  · simp [hx]

/-- Invariant carried through the commit folds for the only-PENDING-mutated
property: the chunk-id column is unchanged and every originally non-PENDING
item row survives untouched. -/
def PendingFrame (its0 : List ItemRow) (d : DB) : Prop :=
  d.items.map (fun it => it.chunk_id) = its0.map (fun it => it.chunk_id)
  ∧ ∀ it ∈ its0, it.status ≠ "PENDING" → it ∈ d.items

theorem commitChunk_pending_frame (its0 : List ItemRow)
    (hnodup : (its0.map (fun it => it.chunk_id)).Nodup)
    (now_i64 : Int) (batch_id sid : Nat) (db : DB) (cr : ChunkResult) (db1 : DB)
    (h : commitChunk now_i64 batch_id sid db cr = .ok db1)
    (hP : PendingFrame its0 db) : PendingFrame its0 db1 := by
  rcases commitChunk_shape now_i64 batch_id sid db cr db1 h with ⟨_, _, hit⟩
  rcases hit with heq | ⟨it, hfind, hpend, f, hf, heq⟩
  · rw [PendingFrame, heq]; exact hP
  · constructor
    · rw [heq, updateItems_map_key db.items batch_id cr.chunk_id f
        (fun x => (hf x).1)]
      exact hP.1
    · intro x hx hxs
      have hxd : x ∈ db.items := hP.2 x hx hxs
      have hnodup_d : (db.items.map (fun it => it.chunk_id)).Nodup := by
        rw [hP.1]; exact hnodup
      have hitmem : it ∈ db.items := List.mem_of_find?_eq_some hfind
      have hcond : ¬ (x.batch_id = batch_id ∧ x.chunk_id = cr.chunk_id) := by
        intro hcx
        have h0 := List.find?_some hfind
        simp only [decide_eq_true_eq] at h0
        have hitp : it.batch_id = batch_id ∧ it.chunk_id = cr.chunk_id := h0
        have hxit : x = it := List.inj_on_of_nodup_map hnodup_d hxd hitmem
          (by rw [hcx.2, hitp.2])
        rw [hxit] at hxs
        exact hxs hpend
      have himg : (fun i : ItemRow =>
          if i.batch_id = batch_id ∧ i.chunk_id = cr.chunk_id then f i else i) x
          = x := by
        show (if x.batch_id = batch_id ∧ x.chunk_id = cr.chunk_id then f x else x) = x
        rw [if_neg hcond]
      rw [heq]
      exact List.mem_map.mpr ⟨x, hxd, himg⟩

theorem commitUser_pending_frame (its0 : List ItemRow)
    (hnodup : (its0.map (fun it => it.chunk_id)).Nodup)
    (now_ms : Nat) (now_i64 : Int) (batch_id : Nat) (db : DB) (ur : UserResult)
    (db1 : DB) (h : commitUser now_ms now_i64 batch_id db ur = .ok db1)
    (hP : PendingFrame its0 db) : PendingFrame its0 db1 := by
  unfold commitUser at h
  cases hcd : commitCooldown now_ms db ur with
  | error e => rw [hcd] at h; exact absurd h (by simp)
  | ok dbc =>
    simp only [hcd] at h
    have hcf := commitCooldown_frame now_ms db ur dbc hcd
    have hPc : PendingFrame its0 dbc := by
      rw [PendingFrame, hcf.2.1]; exact hP
    exact foldlM_ok_preserve (PendingFrame its0) _ ur.chunk_results dbc db1
      (fun t x _ hPt t1 ht1 =>
        commitChunk_pending_frame its0 hnodup now_i64 batch_id ur.session_id
          t x t1 ht1 hPt) hPc h

theorem commitChunk_batches (now_i64 : Int) (batch_id sid : Nat) (db : DB)
    (cr : ChunkResult) (db1 : DB)
    (h : commitChunk now_i64 batch_id sid db cr = .ok db1) :
    db1.batches = db.batches :=
  (commitChunk_shape now_i64 batch_id sid db cr db1 h).1

theorem commitUser_batches (now_ms : Nat) (now_i64 : Int) (batch_id : Nat)
    (db : DB) (ur : UserResult) (db1 : DB)
    (h : commitUser now_ms now_i64 batch_id db ur = .ok db1) :
    db1.batches = db.batches := by
  unfold commitUser at h
  cases hcd : commitCooldown now_ms db ur with
  | error e => rw [hcd] at h; exact absurd h (by simp)
  | ok dbc =>
    simp only [hcd] at h
    have hcf := commitCooldown_frame now_ms db ur dbc hcd
    have := foldlM_ok_preserve (fun d => d.batches = db.batches) _
      ur.chunk_results dbc db1
      (fun t x _ hPt t1 ht1 => by
        show t1.batches = db.batches
        rw [commitChunk_batches now_i64 batch_id ur.session_id t x t1 ht1]
        exact hPt) hcf.1 h
    exact this

theorem find?_map_batch (l : List BatchRow) (x : Nat) (g : BatchRow → BatchRow)
    (hg : ∀ b, (g b).batch_id = b.batch_id) :
    (l.map g).find? (fun b => b.batch_id = x)
      = (l.find? (fun b => b.batch_id = x)).map g := by
  induction l with
  | nil => rfl
  | cons b t ih =>
    simp only [List.map_cons, List.find?_cons]
    by_cases hb : b.batch_id = x
    · rw [show (decide ((g b).batch_id = x)) = true by simp [hg, hb],
        show (decide (b.batch_id = x)) = true by simp [hb]]
      rfl
    · rw [show (decide ((g b).batch_id = x)) = false by simp [hg, hb],
        show (decide (b.batch_id = x)) = false by simp [hb]]
      exact ih


/-- After a successful commit the batch row's stored status is COMMITTED (or
the call was already a no-op), so an immediate re-commit returns the same
store. -/
theorem commit_ok_recommit (now_ms : Nat) (db : DB) (batch : ReservedBatch)
    (results : List UserResult) (db1 : DB)
    (h : commit_batch now_ms db batch results = .ok db1) :
    commit_batch now_ms db1 batch results = .ok db1 := by
  unfold commit_batch at h
  cases hfind : db.batches.find? (fun b => b.batch_id = batch.batch_id) with
  | none =>
    simp only [hfind] at h
    exact absurd h (by simp)
  | some row =>
    simp only [hfind] at h
    by_cases hres : row.status = "RESERVED"
    · rw [if_pos hres] at h
      cases hnow : u64_to_i64 now_ms with
      | error e => rw [hnow] at h; exact absurd h (by simp)
      | ok now_i64 =>
        simp only [hnow] at h
        cases hfold : results.foldlM (commitUser now_ms now_i64 batch.batch_id) db with
        | error e => rw [hfold] at h; exact absurd h (by simp)
        | ok dbf =>
          simp only [hfold] at h
          have hdb1 := Except.ok.inj h
          have hbf : dbf.batches = db.batches :=
            foldlM_ok_preserve (fun d => d.batches = db.batches) _ results db dbf
              (fun t x _ hPt t1 ht1 => by
                show t1.batches = db.batches
                rw [commitUser_batches now_ms now_i64 batch.batch_id t x t1 ht1]
                exact hPt) rfl hfold
          have hb1 : db1.batches = dbf.batches.map (fun b =>
              if b.batch_id = batch.batch_id then
                { b with status := "COMMITTED", reason := "" }
              else b) := by rw [← hdb1]
          have hr0 := List.find?_some hfind
          simp only [decide_eq_true_eq] at hr0
          have hrowid : row.batch_id = batch.batch_id := hr0
          have hfind1 : db1.batches.find? (fun b => b.batch_id = batch.batch_id)
              = some { row with status := "COMMITTED", reason := "" } := by
            rw [hb1, hbf, find?_map_batch db.batches batch.batch_id _
              (fun b => by by_cases hbb : b.batch_id = batch.batch_id <;> simp [hbb]),
              hfind]
            simp [hrowid]
          unfold commit_batch
          simp only [hfind1]
          rw [if_neg (by simp)]
          simp
    · rw [if_neg hres] at h
      by_cases hca : row.status = "COMMITTED" ∨ row.status = "ABORTED"
      · rw [if_pos hca] at h
        have hdb1 := Except.ok.inj h
        rw [← hdb1]
        unfold commit_batch
        simp only [hfind]
        rw [if_neg hres, if_pos hca]
      · rw [if_neg hca] at h
        exact absurd h (by simp)

/-- C6: `commit_batch` is idempotent.  A batch whose stored status is already
COMMITTED or ABORTED commits as a success without touching any state; any
other non-RESERVED stored status is an error; only chunk rows whose stored
status is PENDING are mutated (under per-chunk-id uniqueness of the
`batch_items` table); and running the commit twice produces exactly the state
of running it once. -/
theorem c6_commit_idempotent (now_ms : Nat) (db : DB) (batch : ReservedBatch)
    (results : List UserResult) :
    (∀ row, db.batches.find? (fun b => b.batch_id = batch.batch_id) = some row →
      (row.status = "COMMITTED" ∨ row.status = "ABORTED") →
      commit_batch now_ms db batch results = .ok db)
    ∧ (∀ row, db.batches.find? (fun b => b.batch_id = batch.batch_id) = some row →
      row.status ≠ "RESERVED" → row.status ≠ "COMMITTED" → row.status ≠ "ABORTED" →
      ∃ e, commit_batch now_ms db batch results = .error e)
    ∧ ((db.items.map (fun it => it.chunk_id)).Nodup →
      ∀ db1, commit_batch now_ms db batch results = .ok db1 →
      ∀ it ∈ db.items, it.status ≠ "PENDING" → it ∈ db1.items)
    ∧ applyCommit now_ms (applyCommit now_ms db batch results) batch results
      = applyCommit now_ms db batch results := by
  refine ⟨?_, ?_, ?_, ?_⟩
  · intro row hfind hca
    unfold commit_batch
    simp only [hfind]
    rw [if_neg (by rcases hca with h | h <;> rw [h] <;> decide)]
    rw [if_pos hca]
  · intro row hfind h1 h2 h3
    unfold commit_batch
    simp only [hfind]
    rw [if_neg h1, if_neg (by simp [h2, h3])]
    exact ⟨_, rfl⟩
  · intro hnodup db1 h it hit hitp
    unfold commit_batch at h
    cases hfind : db.batches.find? (fun b => b.batch_id = batch.batch_id) with
    | none =>
      simp only [hfind] at h
      exact absurd h (by simp)
    | some row =>
      simp only [hfind] at h
      by_cases hres : row.status = "RESERVED"
      · rw [if_pos hres] at h
        cases hnow : u64_to_i64 now_ms with
        | error e => rw [hnow] at h; exact absurd h (by simp)
        | ok now_i64 =>
          simp only [hnow] at h
          cases hfold : results.foldlM (commitUser now_ms now_i64 batch.batch_id) db with
          | error e => rw [hfold] at h; exact absurd h (by simp)
          | ok dbf =>
            simp only [hfold] at h
            have hP : PendingFrame db.items dbf :=
              foldlM_ok_preserve (PendingFrame db.items) _ results db dbf
                (fun t x _ hPt t1 ht1 =>
                  commitUser_pending_frame db.items hnodup now_ms now_i64
                    batch.batch_id t x t1 ht1 hPt) ⟨rfl, fun x hx _ => hx⟩ hfold
            have hdb1 := Except.ok.inj h
            have : db1.items = dbf.items := by rw [← hdb1]
            rw [this]
            exact hP.2 it hit hitp
      · rw [if_neg hres] at h
        by_cases hca : row.status = "COMMITTED" ∨ row.status = "ABORTED"
        · rw [if_pos hca] at h
          have hdb1 := Except.ok.inj h
          rw [← hdb1]
          exact hit
        · rw [if_neg hca] at h
          exact absurd h (by simp)
  · unfold applyCommit
    cases h : commit_batch now_ms db batch results with
    | error e =>
      show (match commit_batch now_ms db batch results with
        | Except.ok d => d
        | Except.error _ => db) = db
      rw [h]
    | ok db1 =>
      show (match commit_batch now_ms db1 batch results with
        | Except.ok d => d
        | Except.error _ => db1) = db1
      rw [commit_ok_recommit now_ms db batch results db1 h]

/-- C6 witness: a concrete store whose only batch row is already COMMITTED —
the no-op branch, the only-PENDING frame and the idempotence law evaluated
there. -/
theorem c6_commit_idempotent_witness :
    c6DB.batches.find? (fun b => b.batch_id = c6Batch.batch_id)
      = some ⟨4, "P", 0, "COMMITTED", ""⟩
    ∧ (("COMMITTED" : String) = "COMMITTED" ∨ ("COMMITTED" : String) = "ABORTED")
    ∧ commit_batch 7 c6DB c6Batch [] = .ok c6DB
    ∧ applyCommit 7 (applyCommit 7 c6DB c6Batch []) c6Batch []
      = applyCommit 7 c6DB c6Batch [] :=
  ⟨by rfl, Or.inl rfl,
    (c6_commit_idempotent 7 c6DB c6Batch []).1 ⟨4, "P", 0, "COMMITTED", ""⟩
      (by rfl) (Or.inl rfl),
    (c6_commit_idempotent 7 c6DB c6Batch []).2.2.2⟩

/-! ### C2 support -/

theorem forall2_imp_map_mem {α : Type} {l1 l2 : List α} {R S : α → α → Prop}
    {g : α → α} (h : List.Forall₂ R l1 l2)
    (himp : ∀ a b, b ∈ l2 → R a b → S a (g b)) :
    List.Forall₂ S l1 (l2.map g) := by
  induction h with
  | nil => simp
  | cons hab _ ih =>
    simp only [List.map_cons, List.forall₂_cons]
    constructor
    · exact himp _ _ (by simp) hab
    · exact ih (fun a b hb hr => himp a b (by simp [hb]) hr)

theorem itemsBidSumFor_append (l1 l2 : List ItemRow) (sid : Nat) :
    itemsBidSumFor (l1 ++ l2) sid
      = itemsBidSumFor l1 sid + itemsBidSumFor l2 sid := by
  unfold itemsBidSumFor
  rw [List.filter_append, List.map_append, List.sum_append]

theorem itemsCntFor_append (l1 l2 : List ItemRow) (sid : Nat) :
    itemsCntFor (l1 ++ l2) sid = itemsCntFor l1 sid + itemsCntFor l2 sid := by
  unfold itemsCntFor
  rw [List.filter_append, List.length_append]
  push_cast
  ring

theorem itemsBidSumFor_of_other (its : List ItemRow) (sid z : Nat)
    (hall : ∀ it ∈ its, it.session_id = sid) (hz : z ≠ sid) :
    itemsBidSumFor its z = 0 := by
  unfold itemsBidSumFor
  have : its.filter (fun it => it.session_id = z) = [] := by
    rw [List.filter_eq_nil_iff]
    intro it hit
    simp [hall it hit, hz, Ne.symm hz]
  rw [this]
  rfl

theorem itemsCntFor_of_other (its : List ItemRow) (sid z : Nat)
    (hall : ∀ it ∈ its, it.session_id = sid) (hz : z ≠ sid) :
    itemsCntFor its z = 0 := by
  unfold itemsCntFor
  have : its.filter (fun it => it.session_id = z) = [] := by
    rw [List.filter_eq_nil_iff]
    intro it hit
    simp [hall it hit, hz, Ne.symm hz]
  rw [this]
  rfl

theorem itemsBidSumFor_of_own (its : List ItemRow) (sid : Nat)
    (hall : ∀ it ∈ its, it.session_id = sid) :
    itemsBidSumFor its sid = (its.map (fun it => it.bid)).sum := by
  unfold itemsBidSumFor
  have : its.filter (fun it => it.session_id = sid) = its := by
    rw [List.filter_eq_self]
    intro it hit
    simp [hall it hit]
  rw [this]

theorem itemsCntFor_of_own (its : List ItemRow) (sid : Nat)
    (hall : ∀ it ∈ its, it.session_id = sid) :
    itemsCntFor its sid = (its.length : Int) := by
  unfold itemsCntFor
  have : its.filter (fun it => it.session_id = sid) = its := by
    rw [List.filter_eq_self]
    intro it hit
    simp [hall it hit]
  rw [this]

theorem insertChunks_spec (batch_id sid : Nat) :
    ∀ (chunks : List Nat) (next : Nat) (cs : List ReservedChunk)
      (its : List ItemRow) (next1 : Nat),
      insertChunks batch_id sid chunks next = .ok (cs, its, next1) →
      (∀ it ∈ its, it.session_id = sid ∧ it.batch_id = batch_id
        ∧ it.status = "PENDING" ∧ 0 ≤ it.bid)
      ∧ (its.map (fun it => it.bid)).sum = (chunks.sum : Int)
      ∧ its.length = chunks.length := by
  intro chunks
  induction chunks with
  | nil =>
    intro next cs its next1 h
    unfold insertChunks at h
    have h1 := Except.ok.inj h
    have hits : its = [] := by
      have := congrArg (fun p => p.2.1) h1
      simpa using this.symm
    rw [hits]
    simp
  | cons c rest ih =>
    intro next cs its next1 h
    unfold insertChunks at h
    cases hc : u128_to_i64 c with
    | error e => rw [hc] at h; exact absurd h (by simp)
    | ok b =>
      rw [hc] at h
      cases hr : insertChunks batch_id sid rest (next + 1) with
      | error e => rw [hr] at h; exact absurd h (by simp)
      | ok out =>
        rcases out with ⟨cs2, its2, nx2⟩
        rw [hr] at h
        have h1 := Except.ok.inj h
        have hits : its = ⟨next, batch_id, sid, b, "PENDING", "", ""⟩ :: its2 := by
          have := congrArg (fun p => p.2.1) h1
          simpa using this.symm
        have hb : b = (c : Int) := by
          unfold u128_to_i64 at hc
          by_cases hgt : (c : Int) > I64MAX
          · rw [if_pos hgt] at hc; exact absurd hc (by simp)
          · rw [if_neg hgt] at hc
            exact (Except.ok.inj hc).symm
        rcases ih (next + 1) cs2 its2 nx2 hr with ⟨ihall, ihsum, ihlen⟩
        refine ⟨?_, ?_, ?_⟩
        · intro it hit
          rw [hits] at hit
          rcases List.mem_cons.mp hit with hit | hit
          · rw [hit, hb]; exact ⟨rfl, rfl, rfl, by positivity⟩
          · exact ihall it hit
        · rw [hits]
          simp only [List.map_cons, List.sum_cons, ihsum, hb]
          push_cast
          ring
        · rw [hits]
          simp [ihlen]

theorem forall2_session_ids {l1 l2 : List SessRow}
    {R : SessRow → SessRow → Prop}
    (hid : ∀ a b, R a b → b.session_id = a.session_id)
    (h : List.Forall₂ R l1 l2) :
    l2.map (fun r => r.session_id) = l1.map (fun r => r.session_id) := by
  induction h with
  | nil => rfl
  | cons hab _ ih =>
    simp only [List.map_cons, ih, List.cons.injEq]
    exact ⟨hid _ _ hab, trivial⟩

theorem filter_one_unique {l : List SessRow} {p : SessRow → Bool} {m : SessRow}
    (hf : l.filter p = [m]) :
    m ∈ l ∧ p m = true ∧ ∀ r ∈ l, p r = true → r = m := by
  have hm : m ∈ l.filter p := by rw [hf]; simp
  refine ⟨(List.mem_filter.mp hm).1, (List.mem_filter.mp hm).2, ?_⟩
  intro r hr hpr
  have : r ∈ l.filter p := List.mem_filter.mpr ⟨hr, hpr⟩
  rw [hf] at this
  simpa using this

theorem filter_cond_length_le_one (l : List SessRow)
    (hnd : (l.map (fun r => r.session_id)).Nodup) (p : SessRow → Bool)
    (sid : Nat) (hp : ∀ r, p r = true → r.session_id = sid) :
    (l.filter p).length ≤ 1 := by
  cases hfl : l.filter p with
  | nil => simp
  | cons x t =>
    cases ht : t with
    | nil => simp
    | cons y t2 =>
      exfalso
      rw [ht] at hfl
      have hsub : List.Sublist ((l.filter p).map (fun r => r.session_id))
          (l.map (fun r => r.session_id)) :=
        List.Sublist.map _ (List.filter_sublist l)
      have hnd2 : ((l.filter p).map (fun r => r.session_id)).Nodup :=
        List.Nodup.sublist hsub hnd
      rw [hfl] at hnd2
      have hx : p x = true := by
        have : x ∈ l.filter p := by rw [hfl]; simp
        exact (List.mem_filter.mp this).2
      have hy : p y = true := by
        have : y ∈ l.filter p := by rw [hfl]; simp
        exact (List.mem_filter.mp this).2
      simp only [List.map_cons, List.nodup_cons, List.mem_cons] at hnd2
      exact hnd2.1 (Or.inl (by rw [hp x hx, hp y hy]))

theorem nat_contains_iff (l : List Nat) (y : Nat) : l.contains y = true ↔ y ∈ l :=
  List.elem_iff

theorem contains_append_ne (l : List Nat) (x y : Nat) (h : y ≠ x) :
    (l ++ [x]).contains y = l.contains y := by
  cases hc : l.contains y with
  | true => exact (nat_contains_iff _ _).mpr (by simp [(nat_contains_iff _ _).mp hc])
  | false =>
    have hm : ¬ y ∈ l := fun hmem => by
      rw [(nat_contains_iff _ _).mpr hmem] at hc; cases hc
    cases hc2 : (l ++ [x]).contains y with
    | true =>
      have h2 := (nat_contains_iff _ _).mp hc2
      simp [hm, h] at h2
    | false => rfl

theorem contains_append_left (l l2 : List Nat) (y : Nat)
    (h : l.contains y = true) : (l ++ l2).contains y = true :=
  (nat_contains_iff _ _).mpr (by simp [(nat_contains_iff _ _).mp h])

theorem resinv_success (sess0 : List SessRow) (batch_id : Nat) (acc : RAcc)
    (a : PlannedAllocation) (pair : String)
    (hI : ResInv sess0 batch_id acc)
    (hnodup_acc : (acc.sessions.map (fun r => r.session_id)).Nodup)
    {m : SessRow} (hmmem : m ∈ acc.sessions)
    (hmcond : reserveCond m a.session_id pair (a.chunks.sum : Int)
      (a.chunks.length : Int) = true)
    (its : List ItemRow) (cs : List ReservedChunk) (nx : Nat)
    (hspec_all : ∀ it ∈ its, it.session_id = a.session_id
      ∧ it.batch_id = batch_id ∧ it.status = "PENDING" ∧ 0 ≤ it.bid)
    (hspec_sum : (its.map (fun it => it.bid)).sum = (a.chunks.sum : Int))
    (hspec_len : its.length = a.chunks.length)
    (hchunks : a.chunks ≠ []) :
    ResInv sess0 batch_id
      { sessions := acc.sessions.map (fun r =>
          if reserveCond r a.session_id pair (a.chunks.sum : Int)
              (a.chunks.length : Int) then
            reserveSet (a.chunks.sum : Int) (a.chunks.length : Int) r
          else r),
        new_items := acc.new_items ++ its,
        users := acc.users ++ [⟨a.session_id, cs⟩],
        any := true,
        next := nx } := by
  have hsidall : ∀ it ∈ its, it.session_id = a.session_id :=
    fun it hit => (hspec_all it hit).1
  have hmsid : m.session_id = a.session_id := by
    unfold reserveCond at hmcond
    simp only [decide_eq_true_eq] at hmcond
    exact hmcond.1
  rcases hI with ⟨hF, hitems, husers⟩
  have part1 : List.Forall₂ (fun r r1 => r1 = { r with
      in_flight_bid := r.in_flight_bid
        + itemsBidSumFor (acc.new_items ++ its) r.session_id,
      in_flight_chunks := r.in_flight_chunks
        + itemsCntFor (acc.new_items ++ its) r.session_id,
      has_pending_batch := r.has_pending_batch
        || (((acc.users ++ [(⟨a.session_id, cs⟩ : ReservedUser)]).map
            (fun u => u.session_id)).contains r.session_id) })
      sess0 (acc.sessions.map (fun r =>
        if reserveCond r a.session_id pair (a.chunks.sum : Int)
            (a.chunks.length : Int) then
          reserveSet (a.chunks.sum : Int) (a.chunks.length : Int) r
        else r)) := by
    apply forall2_imp_map_mem hF
    intro r r1 hr1mem hrel
    show (if reserveCond r1 a.session_id pair (a.chunks.sum : Int)
        (a.chunks.length : Int) then
        reserveSet (a.chunks.sum : Int) (a.chunks.length : Int) r1 else r1)
      = { r with
        in_flight_bid := r.in_flight_bid
          + itemsBidSumFor (acc.new_items ++ its) r.session_id,
        in_flight_chunks := r.in_flight_chunks
          + itemsCntFor (acc.new_items ++ its) r.session_id,
        has_pending_batch := r.has_pending_batch
          || (((acc.users ++ [(⟨a.session_id, cs⟩ : ReservedUser)]).map
              (fun u => u.session_id)).contains r.session_id) }
    have hsid1 : r1.session_id = r.session_id := by rw [hrel]
    by_cases hcond : reserveCond r1 a.session_id pair (a.chunks.sum : Int)
        (a.chunks.length : Int) = true
    · rw [if_pos hcond]
      have hrsid : r1.session_id = a.session_id := by
        unfold reserveCond at hcond
        simp only [decide_eq_true_eq] at hcond
        exact hcond.1
      have hrs : r.session_id = a.session_id := by rw [← hsid1]; exact hrsid
      have hsum : itemsBidSumFor (acc.new_items ++ its) r.session_id
          = itemsBidSumFor acc.new_items r.session_id + (a.chunks.sum : Int) := by
        rw [itemsBidSumFor_append, hrs,
          itemsBidSumFor_of_own its a.session_id hsidall, hspec_sum]
      have hcnt2 : itemsCntFor (acc.new_items ++ its) r.session_id
          = itemsCntFor acc.new_items r.session_id + (a.chunks.length : Int) := by
        rw [itemsCntFor_append, hrs,
          itemsCntFor_of_own its a.session_id hsidall, hspec_len]
      have hct : (((acc.users ++ [(⟨a.session_id, cs⟩ : ReservedUser)]).map
          (fun u => u.session_id)).contains r.session_id) = true :=
        (nat_contains_iff _ _).mpr (by simp [hrs])
      rw [hrel]
      unfold reserveSet
      rw [hsum, hcnt2, hct, Bool.or_true]
      simp [add_assoc]
    · rw [if_neg hcond]
      have hrne : r1.session_id ≠ a.session_id := by
        intro heq
        have heq2 : r1 = m :=
          List.inj_on_of_nodup_map hnodup_acc hr1mem hmmem (by rw [heq, hmsid])
        rw [heq2] at hcond
        exact hcond hmcond
      have hrs : r.session_id ≠ a.session_id := by rw [← hsid1]; exact hrne
      have hsum : itemsBidSumFor (acc.new_items ++ its) r.session_id
          = itemsBidSumFor acc.new_items r.session_id := by
        rw [itemsBidSumFor_append,
          itemsBidSumFor_of_other its a.session_id r.session_id hsidall hrs,
          add_zero]
      have hcnt2 : itemsCntFor (acc.new_items ++ its) r.session_id
          = itemsCntFor acc.new_items r.session_id := by
        rw [itemsCntFor_append,
          itemsCntFor_of_other its a.session_id r.session_id hsidall hrs, add_zero]
      have hct : (((acc.users ++ [(⟨a.session_id, cs⟩ : ReservedUser)]).map
          (fun u => u.session_id)).contains r.session_id)
          = ((acc.users.map (fun u => u.session_id)).contains r.session_id) := by
        rw [List.map_append]
        exact contains_append_ne _ _ _ hrs
      rw [hsum, hcnt2, hct]
      exact hrel
  have part2 : ∀ it ∈ acc.new_items ++ its, it.batch_id = batch_id
      ∧ it.status = "PENDING"
      ∧ (((acc.users ++ [(⟨a.session_id, cs⟩ : ReservedUser)]).map
          (fun u => u.session_id)).contains it.session_id) = true
      ∧ 0 ≤ it.bid := by
    intro it hit
    rcases List.mem_append.mp hit with hit | hit
    · rcases hitems it hit with ⟨hb, hs, hcont, hbid⟩
      refine ⟨hb, hs, ?_, hbid⟩
      rw [List.map_append]
      exact contains_append_left _ _ _ hcont
    · rcases hspec_all it hit with ⟨hsid, hb, hs, hbid⟩
      refine ⟨hb, hs, ?_, hbid⟩
      exact (nat_contains_iff _ _).mpr (by simp [hsid])
  have part3 : ∀ u ∈ acc.users ++ [(⟨a.session_id, cs⟩ : ReservedUser)],
      ∃ it ∈ acc.new_items ++ its, it.session_id = u.session_id := by
    intro u hu
    rcases List.mem_append.mp hu with hu | hu
    · rcases husers u hu with ⟨it, hit, hsid⟩
      exact ⟨it, List.mem_append_left _ hit, hsid⟩
    · have hu2 : u = (⟨a.session_id, cs⟩ : ReservedUser) := by simpa using hu
      cases hits : its with
      | nil =>
        exfalso
        rw [hits] at hspec_len
        exact hchunks (List.eq_nil_of_length_eq_zero (by simpa using hspec_len.symm))
      | cons it0 rest =>
        refine ⟨it0, List.mem_append_right _ (by simp), ?_⟩
        rw [hu2]
        exact hsidall it0 (by rw [hits]; simp)
  exact ⟨part1, part2, part3⟩

theorem reserveAlloc_resinv (sess0 : List SessRow) (batch_id : Nat)
    (hnodup : (sess0.map (fun r => r.session_id)).Nodup)
    (pair : String) (now_ms : Nat) (acc : RAcc) (a : PlannedAllocation)
    (hchunks : a.chunks ≠ []) (acc1 : RAcc)
    (hrun : reserveAlloc pair now_ms batch_id acc a = .ok acc1)
    (hI : ResInv sess0 batch_id acc) : ResInv sess0 batch_id acc1 := by
  have hid : ∀ (r r1 : SessRow),
      (r1 = { r with
        in_flight_bid := r.in_flight_bid + itemsBidSumFor acc.new_items r.session_id,
        in_flight_chunks :=
          r.in_flight_chunks + itemsCntFor acc.new_items r.session_id,
        has_pending_batch := r.has_pending_batch
          || (acc.users.map (fun u => u.session_id)).contains r.session_id }) →
      r1.session_id = r.session_id := by
    intro r r1 h
    rw [h]
  have hids : acc.sessions.map (fun r => r.session_id)
      = sess0.map (fun r => r.session_id) :=
    forall2_session_ids hid hI.1
  have hnodup_acc : (acc.sessions.map (fun r => r.session_id)).Nodup := by
    rw [hids]; exact hnodup
  -- conversions succeed in a successful run
  have hgt : ¬ ((a.chunks.sum : Int) > I64MAX) := by
    intro hgt
    have hconv : u128_to_i64 a.chunks.sum = .error "u128 too large for i64" := by
      unfold u128_to_i64; rw [if_pos hgt]
    unfold reserveAlloc at hrun
    rw [hconv] at hrun
    exact absurd hrun (by simp)
  have htb : u128_to_i64 a.chunks.sum = .ok (a.chunks.sum : Int) := by
    unfold u128_to_i64; rw [if_neg hgt]
  unfold reserveAlloc at hrun
  rw [htb] at hrun
  simp only [u32_to_i64] at hrun
  have hle1 := filter_cond_length_le_one acc.sessions hnodup_acc
    (fun r => reserveCond r a.session_id pair (a.chunks.sum : Int)
      (a.chunks.length : Int)) a.session_id
    (fun r hr => by
      unfold reserveCond at hr
      simp only [decide_eq_true_eq] at hr
      exact hr.1)
  by_cases hcnt : (acc.sessions.filter (fun r =>
      reserveCond r a.session_id pair (a.chunks.sum : Int)
        (a.chunks.length : Int))).length = 1
  · -- reservation success
    rw [if_neg (by omega)] at hrun
    have hall : ∀ c ∈ a.chunks, (c : Int) ≤ I64MAX := by
      intro c hc
      have h1 : c ≤ a.chunks.sum :=
        List.single_le_sum (fun x _ => Nat.zero_le x) c hc
      have h2 : (c : Int) ≤ (a.chunks.sum : Int) := by exact_mod_cast h1
      omega
    rcases insertChunks_ok batch_id a.session_id a.chunks acc.next hall
      with ⟨⟨cs, its, nx⟩, hic⟩
    rcases insertChunks_spec batch_id a.session_id a.chunks acc.next cs its nx hic
      with ⟨hspec_all, hspec_sum, hspec_len⟩
    have hsidall : ∀ it ∈ its, it.session_id = a.session_id :=
      fun it hit => (hspec_all it hit).1
    rcases List.length_eq_one.mp hcnt with ⟨m, hm⟩
    rcases filter_one_unique hm with ⟨hmmem, hmcond, hmuniq⟩
    have hmsid : m.session_id = a.session_id := by
      unfold reserveCond at hmcond
      simp only [decide_eq_true_eq] at hmcond
      exact hmcond.1
    cases hany : acc.any with
    | true =>
      rw [hany] at hrun
      simp only [if_true] at hrun
      rw [hic] at hrun
      have hacc1 := Except.ok.inj hrun
      rw [← hacc1]
      exact resinv_success sess0 batch_id acc a pair hI hnodup_acc hmmem hmcond
        its cs nx hspec_all hspec_sum hspec_len hchunks
    | false =>
      rw [hany] at hrun
      simp only [Bool.false_eq_true, if_false] at hrun
      cases hnow : u64_to_i64 now_ms with
      | error e => rw [hnow] at hrun; exact absurd hrun (by simp)
      | ok v =>
        rw [hnow] at hrun
        rw [hic] at hrun
        have hacc1 := Except.ok.inj hrun
        rw [← hacc1]
        exact resinv_success sess0 batch_id acc a pair hI hnodup_acc hmmem hmcond
          its cs nx hspec_all hspec_sum hspec_len hchunks
  · -- CAS miss: with unique session ids, fewer than one row matched, so the
    -- conditional update touched nothing
    rw [if_pos (by simpa using hcnt)] at hrun
    have h0 : (acc.sessions.filter (fun r =>
        reserveCond r a.session_id pair (a.chunks.sum : Int)
          (a.chunks.length : Int))).length = 0 := by omega
    have hnone : ∀ r ∈ acc.sessions,
        ¬ (reserveCond r a.session_id pair (a.chunks.sum : Int)
            (a.chunks.length : Int) = true) := by
      intro r hr hcond
      have hmem : r ∈ acc.sessions.filter (fun r =>
          reserveCond r a.session_id pair (a.chunks.sum : Int)
            (a.chunks.length : Int)) := List.mem_filter.mpr ⟨hr, hcond⟩
      rw [List.length_eq_zero] at h0
      rw [h0] at hmem
      exact absurd hmem (by simp)
    have hsmap : acc.sessions.map (fun r =>
        if reserveCond r a.session_id pair (a.chunks.sum : Int)
            (a.chunks.length : Int) = true
        then reserveSet (a.chunks.sum : Int) (a.chunks.length : Int) r else r)
        = acc.sessions := by
      calc acc.sessions.map (fun r =>
            if reserveCond r a.session_id pair (a.chunks.sum : Int)
                (a.chunks.length : Int) = true
            then reserveSet (a.chunks.sum : Int) (a.chunks.length : Int) r else r)
          = acc.sessions.map (fun r => r) := by
            apply List.map_congr_left
            intro r hr
            rw [if_neg (hnone r hr)]
        _ = acc.sessions := List.map_id _
    have hacc1 := Except.ok.inj hrun
    rw [← hacc1, hsmap]
    exact hI

theorem reserveLoop_resinv (sess0 : List SessRow) (batch_id : Nat)
    (hnodup : (sess0.map (fun r => r.session_id)).Nodup)
    (pair : String) (now_ms : Nat) :
    ∀ (allocs : List PlannedAllocation) (acc acc1 : RAcc),
      (∀ a ∈ allocs, a.chunks ≠ []) →
      reserveLoop pair now_ms batch_id allocs acc = .ok acc1 →
      ResInv sess0 batch_id acc → ResInv sess0 batch_id acc1 := by
  intro allocs
  induction allocs with
  | nil =>
    intro acc acc1 _ hrun hI
    unfold reserveLoop at hrun
    rw [← Except.ok.inj hrun]
    exact hI
  | cons a rest ih =>
    intro acc acc1 hne hrun hI
    unfold reserveLoop at hrun
    cases hstep : reserveAlloc pair now_ms batch_id acc a with
    | error e => rw [hstep] at hrun; exact absurd hrun (by simp)
    | ok acc2 =>
      rw [hstep] at hrun
      exact ih acc2 acc1 (fun x hx => hne x (by simp [hx])) hrun
        (reserveAlloc_resinv sess0 batch_id hnodup pair now_ms acc a
          (hne a (by simp)) acc2 hstep hI)

theorem resinv_init (sess0 : List SessRow) (batch_id next : Nat) :
    ResInv sess0 batch_id ⟨sess0, [], [], false, next⟩ := by
  refine ⟨?_, ?_, ?_⟩
  · have hpt : ∀ r ∈ sess0, r = { r with
        in_flight_bid := r.in_flight_bid + itemsBidSumFor [] r.session_id,
        in_flight_chunks := r.in_flight_chunks + itemsCntFor [] r.session_id,
        has_pending_batch := r.has_pending_batch
          || (([] : List ReservedUser).map (fun u => u.session_id)).contains
            r.session_id } := by
      intro r _
      simp [itemsBidSumFor, itemsCntFor]
    exact List.forall₂_same.mpr hpt
  · intro it hit
    exact absurd hit (by simp)
  · intro u hu
    exact absurd hu (by simp)

theorem recover_fold_sessions :
    ∀ (items : List ItemRow) (ss : List SessRow),
      items.foldl (fun ss it =>
        updateSessions ss it.session_id (fun r =>
          { r with in_flight_bid := r.in_flight_bid - it.bid,
                   in_flight_chunks := r.in_flight_chunks - 1 })) ss
      = ss.map (fun r =>
          { r with
            in_flight_bid := r.in_flight_bid - itemsBidSumFor items r.session_id,
            in_flight_chunks :=
              r.in_flight_chunks - itemsCntFor items r.session_id }) := by
  intro items
  induction items with
  | nil =>
    intro ss
    simp only [List.foldl_nil]
    calc ss = ss.map (fun r => r) := (List.map_id ss).symm
      _ = ss.map (fun r =>
          { r with
            in_flight_bid := r.in_flight_bid - itemsBidSumFor [] r.session_id,
            in_flight_chunks :=
              r.in_flight_chunks - itemsCntFor [] r.session_id }) := by
          apply List.map_congr_left
          intro r _
          simp [itemsBidSumFor, itemsCntFor]
  | cons it rest ih =>
    intro ss
    simp only [List.foldl_cons]
    rw [ih]
    unfold updateSessions
    rw [List.map_map]
    apply List.map_congr_left
    intro r _
    simp only [Function.comp_apply]
    by_cases h : r.session_id = it.session_id
    · rw [if_pos h]
      have hsum : itemsBidSumFor (it :: rest) r.session_id
          = it.bid + itemsBidSumFor rest r.session_id := by
        unfold itemsBidSumFor
        rw [List.filter_cons_of_pos (by simp [h])]
        simp
      have hcnt : itemsCntFor (it :: rest) r.session_id
          = 1 + itemsCntFor rest r.session_id := by
        unfold itemsCntFor
        rw [List.filter_cons_of_pos (by simp [h])]
        simp only [List.length_cons]
        push_cast
        ring
      rw [hsum, hcnt]
      simp [sub_sub]
    · rw [if_neg h]
      have hsum : itemsBidSumFor (it :: rest) r.session_id
          = itemsBidSumFor rest r.session_id := by
        unfold itemsBidSumFor
        rw [List.filter_cons_of_neg
          (by simp only [decide_eq_true_eq]; exact fun he => h he.symm)]
      have hcnt : itemsCntFor (it :: rest) r.session_id
          = itemsCntFor rest r.session_id := by
        unfold itemsCntFor
        rw [List.filter_cons_of_neg
          (by simp only [decide_eq_true_eq]; exact fun he => h he.symm)]
      rw [hsum, hcnt]

theorem recover_fresh (db0 : DB) (sess : List SessRow) (newitems : List ItemRow)
    (nxt nid : Nat) (pair : String) (created : Int)
    (hnores : ∀ b ∈ db0.batches, b.status ≠ "RESERVED")
    (hold : ∀ it ∈ db0.items, it.batch_id ≠ nid)
    (hnew : ∀ it ∈ newitems, it.batch_id = nid ∧ it.status = "PENDING") :
    recover_uncommitted
      { sessions := sess,
        batches := db0.batches ++ [⟨nid, pair, created, "RESERVED", ""⟩],
        items := db0.items ++ newitems,
        next_id := nxt }
    = { sessions := (sess.map (fun r =>
          { r with
            in_flight_bid :=
              r.in_flight_bid - itemsBidSumFor newitems r.session_id,
            in_flight_chunks :=
              r.in_flight_chunks - itemsCntFor newitems r.session_id })).map
          (fun r =>
            if (newitems.map (fun it => it.session_id)).contains r.session_id then
              { r with has_pending_batch := false }
            else r),
        batches := (db0.batches
            ++ [(⟨nid, pair, created, "RESERVED", ""⟩ : BatchRow)]).map (fun x =>
          if x.batch_id = nid then
            { x with status := "ABORTED",
                     reason := "recovered uncommitted batch" }
          else x),
        items := (db0.items ++ newitems).map (fun it =>
          if it.batch_id = nid ∧ it.status = "PENDING" then
            { it with status := "SKIPPED", error := "RECOVERED" }
          else it),
        next_id := nxt } := by
  have hfil : db0.batches.filter (fun b => b.status = "RESERVED") = [] := by
    rw [List.filter_eq_nil_iff]
    intro b hb
    simp only [decide_eq_true_eq]
    exact hnores b hb
  have hpend : (db0.items ++ newitems).filter (fun it =>
      it.batch_id = nid ∧ it.status = "PENDING") = newitems := by
    rw [List.filter_append]
    have h1 : db0.items.filter (fun it =>
        it.batch_id = nid ∧ it.status = "PENDING") = [] := by
      rw [List.filter_eq_nil_iff]
      intro it hit
      simp only [decide_eq_true_eq]
      exact fun hc => hold it hit hc.1
    have h2 : newitems.filter (fun it =>
        it.batch_id = nid ∧ it.status = "PENDING") = newitems := by
      rw [List.filter_eq_self]
      intro it hit
      simp only [decide_eq_true_eq]
      exact hnew it hit
    rw [h1, h2]
    exact List.nil_append _
  unfold recover_uncommitted
  dsimp only
  rw [List.filter_append, hfil]
  show recoverBatch _ _ = _
  unfold recoverBatch
  dsimp only
  rw [hpend, recover_fold_sessions]

/-- C2: on a store with unique session ids, no `RESERVED` batches and no items
under the upcoming batch id, a successful `reserve_execution` followed by
`recover_uncommitted` (no intervening `commit_batch`) restores every session's
`in_flight_bid` and `in_flight_chunks` to their pre-reservation values, clears
`has_pending_batch` for the reserved sessions and leaves it unchanged for the
others; recovery marks every chunk of the reserved batch `SKIPPED` with reason
`RECOVERED` and transitions the batch from `RESERVED` to `ABORTED`. -/
theorem c2_reserve_recover_roundtrip (db : DB) (pair : String) (now_ms : Nat)
    (allocs : List PlannedAllocation) (rb : ReservedBatch) (db1 : DB)
    (hnodup : (db.sessions.map (fun r => r.session_id)).Nodup)
    (hnores : ∀ b ∈ db.batches, b.status ≠ "RESERVED")
    (holdb : ∀ it ∈ db.items, it.batch_id ≠ db.next_id)
    (hres : reserve_execution_checked db pair now_ms allocs
      = .ok (some rb, db1)) :
    List.Forall₂ (fun r r2 =>
      r2.session_id = r.session_id
      ∧ r2.in_flight_bid = r.in_flight_bid
      ∧ r2.in_flight_chunks = r.in_flight_chunks
      ∧ r2.remaining_bid = r.remaining_bid
      ∧ r2.remaining_chunks = r.remaining_chunks
      ∧ ((rb.users.map (fun u => u.session_id)).contains r.session_id = true →
          r2.has_pending_batch = false)
      ∧ ((rb.users.map (fun u => u.session_id)).contains r.session_id = false →
          r2.has_pending_batch = r.has_pending_batch))
      db.sessions (recover_uncommitted db1).sessions
    ∧ (∀ it ∈ (recover_uncommitted db1).items, it.batch_id = rb.batch_id →
        it.status = "SKIPPED" ∧ it.error = "RECOVERED")
    ∧ (∃ b ∈ (recover_uncommitted db1).batches,
        b.batch_id = rb.batch_id ∧ b.status = "ABORTED"
          ∧ b.reason = "recovered uncommitted batch") := by
  unfold reserve_execution_checked at hres
  by_cases hemp : allocs.isEmpty = true
  · rw [if_pos hemp] at hres; exact absurd hres (by simp)
  · rw [if_neg hemp] at hres
    by_cases hzero : allocs.any (fun a => a.chunks.isEmpty) = true
    · rw [if_pos hzero] at hres; exact absurd hres (by simp)
    · rw [if_neg hzero] at hres
      have hne : ∀ a ∈ allocs, a.chunks ≠ [] := by
        intro a ha hnil
        apply hzero
        rw [List.any_eq_true]
        exact ⟨a, ha, by rw [hnil]; rfl⟩
      unfold reserve_execution at hres
      cases hloop : reserveLoop pair now_ms db.next_id allocs
          ⟨db.sessions, [], [], false, db.next_id + 1⟩ with
      | error e =>
        simp only [hloop] at hres
        exact absurd hres (by simp)
      | ok acc =>
        simp only [hloop] at hres
        cases hany : acc.any with
        | false =>
          rw [if_pos hany] at hres
          have h1 := congrArg Prod.fst (Except.ok.inj hres)
          exact absurd h1 (by simp)
        | true =>
          rw [if_neg (by simp [hany])] at hres
          cases hcreated : u64_to_i64 now_ms with
          | error e => rw [hcreated] at hres; exact absurd hres (by simp)
          | ok created =>
            rw [hcreated] at hres
            have hinj := Except.ok.inj hres
            have hrb : rb = ⟨db.next_id, pair, now_ms, acc.users⟩ :=
              (Option.some.inj (congrArg Prod.fst hinj)).symm
            have hdb1 : db1 =
                { sessions := acc.sessions,
                  batches := db.batches
                    ++ [⟨db.next_id, pair, created, "RESERVED", ""⟩],
                  items := db.items ++ acc.new_items,
                  next_id := acc.next } := (congrArg Prod.snd hinj).symm
            obtain ⟨hF, hitems, husers⟩ :=
              reserveLoop_resinv db.sessions db.next_id hnodup pair now_ms
                allocs ⟨db.sessions, [], [], false, db.next_id + 1⟩ acc hne hloop
                (resinv_init db.sessions db.next_id (db.next_id + 1))
            have hrecov := recover_fresh db acc.sessions acc.new_items acc.next
              db.next_id pair created hnores holdb
              (fun it hit => ⟨(hitems it hit).1, (hitems it hit).2.1⟩)
            rw [hdb1, hrb, hrecov]
            dsimp only
            refine ⟨?_, ?_, ?_⟩
            · rw [List.map_map]
              apply forall2_imp_map_mem hF
              intro r r1 hr1 hrel
              simp only [Function.comp_apply]
              have hsid1 : r1.session_id = r.session_id := by rw [hrel]
              rw [hsid1]
              by_cases htch : (acc.new_items.map
                  (fun it => it.session_id)).contains r.session_id = true
              · rw [if_pos htch]
                rw [hrel]
                dsimp only
                refine ⟨rfl, ?_, ?_, rfl, rfl, fun _ => rfl, fun hcc => ?_⟩
                · rw [add_sub_cancel_right]
                · rw [add_sub_cancel_right]
                · rcases List.mem_map.mp ((nat_contains_iff _ _).mp htch)
                    with ⟨it, hit, hitsid⟩
                  have hc2 := (hitems it hit).2.2.1
                  rw [hitsid] at hc2
                  cases hc2.symm.trans hcc
              · rw [if_neg htch]
                rw [hrel]
                dsimp only
                refine ⟨rfl, ?_, ?_, rfl, rfl, fun hcc => ?_, fun hcc => ?_⟩
                · rw [add_sub_cancel_right]
                · rw [add_sub_cancel_right]
                · rcases List.mem_map.mp ((nat_contains_iff _ _).mp hcc)
                    with ⟨u, hu, husid⟩
                  rcases husers u hu with ⟨it, hit, hitsid⟩
                  exact absurd ((nat_contains_iff _ _).mpr
                    (List.mem_map.mpr ⟨it, hit, by rw [hitsid, husid]⟩)) htch
                · rw [hcc, Bool.or_false]
            · intro it hit hbid
              rcases List.mem_map.mp hit with ⟨it0, hit0, heq⟩
              by_cases hcnd : it0.batch_id = db.next_id ∧ it0.status = "PENDING"
              · rw [if_pos hcnd] at heq
                rw [← heq]
                exact ⟨rfl, rfl⟩
              · rw [if_neg hcnd] at heq
                exfalso
                rw [← heq] at hbid
                rcases List.mem_append.mp hit0 with h0 | h0
                · exact holdb it0 h0 hbid
                · exact hcnd ⟨hbid, (hitems it0 h0).2.1⟩
            · refine ⟨(⟨db.next_id, pair, created, "ABORTED",
                  "recovered uncommitted batch"⟩ : BatchRow), ?_, rfl, rfl, rfl⟩
              apply List.mem_map.mpr
              refine ⟨⟨db.next_id, pair, created, "RESERVED", ""⟩,
                List.mem_append_right _ (by simp), ?_⟩
              dsimp only
              rw [if_pos rfl]

/-- C2 witness: the roundtrip theorem applied to a concrete one-session store
with a two-chunk reservation (batch 20, chunks 21 and 22). -/
theorem c2_reserve_recover_roundtrip_witness :
    ((c2DB.sessions.map (fun r => r.session_id)).Nodup
      ∧ (∀ b ∈ c2DB.batches, b.status ≠ "RESERVED")
      ∧ (∀ it ∈ c2DB.items, it.batch_id ≠ c2DB.next_id)
      ∧ reserve_execution_checked c2DB "P" 5 [c2Alloc]
          = .ok (some c2RBw, c2DB1w))
    ∧ (List.Forall₂ (fun r r2 =>
        r2.session_id = r.session_id
        ∧ r2.in_flight_bid = r.in_flight_bid
        ∧ r2.in_flight_chunks = r.in_flight_chunks
        ∧ r2.remaining_bid = r.remaining_bid
        ∧ r2.remaining_chunks = r.remaining_chunks
        ∧ ((c2RBw.users.map (fun u => u.session_id)).contains r.session_id
            = true → r2.has_pending_batch = false)
        ∧ ((c2RBw.users.map (fun u => u.session_id)).contains r.session_id
            = false → r2.has_pending_batch = r.has_pending_batch))
        c2DB.sessions (recover_uncommitted c2DB1w).sessions
      ∧ (∀ it ∈ (recover_uncommitted c2DB1w).items,
          it.batch_id = c2RBw.batch_id →
          it.status = "SKIPPED" ∧ it.error = "RECOVERED")
      ∧ (∃ b ∈ (recover_uncommitted c2DB1w).batches,
          b.batch_id = c2RBw.batch_id ∧ b.status = "ABORTED"
            ∧ b.reason = "recovered uncommitted batch")) :=
  ⟨⟨by decide, by decide, by decide, by rfl⟩,
    c2_reserve_recover_roundtrip c2DB "P" 5 [c2Alloc] c2RBw c2DB1w
      (by decide) (by decide) (by decide) (by rfl)⟩

theorem pendingBidSum_cons (y : ItemRow) (l : List ItemRow) (sid : Nat) :
    pendingBidSum (y :: l) sid
      = (if y.session_id = sid ∧ y.status = "PENDING" then y.bid else 0)
        + pendingBidSum l sid := by
  unfold pendingBidSum
  by_cases h : y.session_id = sid ∧ y.status = "PENDING"
  · rw [List.filter_cons_of_pos (by simpa using h), if_pos h]
    simp
  · rw [List.filter_cons_of_neg (by simpa using h), if_neg h]
    simp

theorem pendingCnt_cons (y : ItemRow) (l : List ItemRow) (sid : Nat) :
    pendingCnt (y :: l) sid
      = (if y.session_id = sid ∧ y.status = "PENDING" then 1 else 0)
        + pendingCnt l sid := by
  unfold pendingCnt
  by_cases h : y.session_id = sid ∧ y.status = "PENDING"
  · rw [List.filter_cons_of_pos (by simpa using h), if_pos h]
    simp only [List.length_cons]
    push_cast
    ring
  · rw [List.filter_cons_of_neg (by simpa using h), if_neg h]
    simp

theorem pendingBidSum_append (l1 l2 : List ItemRow) (sid : Nat) :
    pendingBidSum (l1 ++ l2) sid
      = pendingBidSum l1 sid + pendingBidSum l2 sid := by
  unfold pendingBidSum
  rw [List.filter_append, List.map_append, List.sum_append]

theorem pendingCnt_append (l1 l2 : List ItemRow) (sid : Nat) :
    pendingCnt (l1 ++ l2) sid = pendingCnt l1 sid + pendingCnt l2 sid := by
  unfold pendingCnt
  rw [List.filter_append, List.length_append]
  push_cast
  ring

theorem pendingBidSum_nonneg (its : List ItemRow) (sid : Nat)
    (hb : ∀ it ∈ its, 0 ≤ it.bid) : 0 ≤ pendingBidSum its sid := by
  unfold pendingBidSum
  apply List.sum_nonneg
  intro x hx
  rcases List.mem_map.mp hx with ⟨it, hit, hxe⟩
  rw [← hxe]
  exact hb it (List.mem_of_mem_filter hit)

theorem pendingCnt_nonneg (its : List ItemRow) (sid : Nat) :
    0 ≤ pendingCnt its sid := by
  unfold pendingCnt
  positivity

theorem pendingBidSum_of_own_pending (its : List ItemRow) (sid : Nat)
    (hall : ∀ it ∈ its, it.session_id = sid ∧ it.status = "PENDING") :
    pendingBidSum its sid = (its.map (fun it => it.bid)).sum := by
  unfold pendingBidSum
  have h : its.filter (fun it =>
      it.session_id = sid ∧ it.status = "PENDING") = its := by
    rw [List.filter_eq_self]
    intro it hit
    simpa using hall it hit
  rw [h]

theorem pendingCnt_of_own_pending (its : List ItemRow) (sid : Nat)
    (hall : ∀ it ∈ its, it.session_id = sid ∧ it.status = "PENDING") :
    pendingCnt its sid = (its.length : Int) := by
  unfold pendingCnt
  have h : its.filter (fun it =>
      it.session_id = sid ∧ it.status = "PENDING") = its := by
    rw [List.filter_eq_self]
    intro it hit
    simpa using hall it hit
  rw [h]

theorem pendingBidSum_of_other (its : List ItemRow) (s z : Nat)
    (hall : ∀ it ∈ its, it.session_id = s) (hz : z ≠ s) :
    pendingBidSum its z = 0 := by
  unfold pendingBidSum
  have h : its.filter (fun it =>
      it.session_id = z ∧ it.status = "PENDING") = [] := by
    rw [List.filter_eq_nil_iff]
    intro it hit
    simp only [decide_eq_true_eq, not_and]
    intro hsid
    exact absurd (hsid.symm.trans (hall it hit)) hz
  rw [h]
  rfl

theorem pendingCnt_of_other (its : List ItemRow) (s z : Nat)
    (hall : ∀ it ∈ its, it.session_id = s) (hz : z ≠ s) :
    pendingCnt its z = 0 := by
  unfold pendingCnt
  have h : its.filter (fun it =>
      it.session_id = z ∧ it.status = "PENDING") = [] := by
    rw [List.filter_eq_nil_iff]
    intro it hit
    simp only [decide_eq_true_eq, not_and]
    intro hsid
    exact absurd (hsid.symm.trans (hall it hit)) hz
  rw [h]
  rfl

theorem pendingBidSum_update_le (b c sid : Nat) (f : ItemRow → ItemRow)
    (hf : ∀ x, (f x).session_id = x.session_id ∧ (f x).bid = x.bid
      ∧ (f x).status ≠ "PENDING") :
    ∀ its : List ItemRow, (∀ x ∈ its, 0 ≤ x.bid) →
      pendingBidSum (updateItems its b c f) sid ≤ pendingBidSum its sid := by
  intro its
  induction its with
  | nil =>
    intro _
    simp [updateItems]
  | cons y l ih =>
    intro hb
    have hb0 : 0 ≤ y.bid := hb y (by simp)
    have htail := ih (fun x hx => hb x (by simp [hx]))
    unfold updateItems at htail ⊢
    rw [List.map_cons]
    rw [pendingBidSum_cons, pendingBidSum_cons]
    by_cases hc : y.batch_id = b ∧ y.chunk_id = c
    · rw [if_pos hc]
      have hfy : ¬ ((f y).session_id = sid ∧ (f y).status = "PENDING") :=
        fun hp => (hf y).2.2 hp.2
      rw [if_neg hfy]
      by_cases hp : y.session_id = sid ∧ y.status = "PENDING"
      · rw [if_pos hp]; omega
      · rw [if_neg hp]; omega
    · rw [if_neg hc]; omega

theorem pendingCnt_update_le (b c sid : Nat) (f : ItemRow → ItemRow)
    (hf : ∀ x, (f x).session_id = x.session_id ∧ (f x).bid = x.bid
      ∧ (f x).status ≠ "PENDING") :
    ∀ its : List ItemRow,
      pendingCnt (updateItems its b c f) sid ≤ pendingCnt its sid := by
  intro its
  induction its with
  | nil => simp [updateItems]
  | cons y l ih =>
    have htail := ih
    unfold updateItems at htail ⊢
    rw [List.map_cons]
    rw [pendingCnt_cons, pendingCnt_cons]
    by_cases hc : y.batch_id = b ∧ y.chunk_id = c
    · rw [if_pos hc]
      have hfy : ¬ ((f y).session_id = sid ∧ (f y).status = "PENDING") :=
        fun hp => (hf y).2.2 hp.2
      rw [if_neg hfy]
      by_cases hp : y.session_id = sid ∧ y.status = "PENDING"
      · rw [if_pos hp]; omega
      · rw [if_neg hp]; omega
    · rw [if_neg hc]; omega

theorem pendingBidSum_update_hit (b c sid : Nat) (f : ItemRow → ItemRow)
    (hf : ∀ x, (f x).session_id = x.session_id ∧ (f x).bid = x.bid
      ∧ (f x).status ≠ "PENDING") :
    ∀ its : List ItemRow, (∀ x ∈ its, 0 ≤ x.bid) →
      ∀ it ∈ its, it.batch_id = b → it.chunk_id = c → it.session_id = sid →
        it.status = "PENDING" →
      pendingBidSum (updateItems its b c f) sid + it.bid
        ≤ pendingBidSum its sid := by
  intro its
  induction its with
  | nil =>
    intro _ it hit
    exact absurd hit (by simp)
  | cons y l ih =>
    intro hb it hit hitb hitc hits hitp
    have hb0 : 0 ≤ y.bid := hb y (by simp)
    have hbl : ∀ x ∈ l, 0 ≤ x.bid := fun x hx => hb x (by simp [hx])
    unfold updateItems at ih ⊢
    rw [List.map_cons]
    rw [pendingBidSum_cons, pendingBidSum_cons]
    rcases List.mem_cons.mp hit with heq | hmem
    · subst heq
      have hcnd : it.batch_id = b ∧ it.chunk_id = c := ⟨hitb, hitc⟩
      rw [if_pos hcnd]
      have hfy : ¬ ((f it).session_id = sid ∧ (f it).status = "PENDING") :=
        fun hp => (hf it).2.2 hp.2
      have hpit : it.session_id = sid ∧ it.status = "PENDING" := ⟨hits, hitp⟩
      rw [if_neg hfy, if_pos hpit]
      have htail := pendingBidSum_update_le b c sid f hf l hbl
      unfold updateItems at htail
      omega
    · have htail := ih hbl it hmem hitb hitc hits hitp
      by_cases hc : y.batch_id = b ∧ y.chunk_id = c
      · rw [if_pos hc]
        have hfy : ¬ ((f y).session_id = sid ∧ (f y).status = "PENDING") :=
          fun hp => (hf y).2.2 hp.2
        rw [if_neg hfy]
        by_cases hp : y.session_id = sid ∧ y.status = "PENDING"
        · rw [if_pos hp]; omega
        · rw [if_neg hp]; omega
      · rw [if_neg hc]; omega

theorem pendingCnt_update_hit (b c sid : Nat) (f : ItemRow → ItemRow)
    (hf : ∀ x, (f x).session_id = x.session_id ∧ (f x).bid = x.bid
      ∧ (f x).status ≠ "PENDING") :
    ∀ its : List ItemRow,
      ∀ it ∈ its, it.batch_id = b → it.chunk_id = c → it.session_id = sid →
        it.status = "PENDING" →
      pendingCnt (updateItems its b c f) sid + 1 ≤ pendingCnt its sid := by
  intro its
  induction its with
  | nil =>
    intro it hit
    exact absurd hit (by simp)
  | cons y l ih =>
    intro it hit hitb hitc hits hitp
    unfold updateItems at ih ⊢
    rw [List.map_cons]
    rw [pendingCnt_cons, pendingCnt_cons]
    rcases List.mem_cons.mp hit with heq | hmem
    · subst heq
      have hcnd : it.batch_id = b ∧ it.chunk_id = c := ⟨hitb, hitc⟩
      rw [if_pos hcnd]
      have hfy : ¬ ((f it).session_id = sid ∧ (f it).status = "PENDING") :=
        fun hp => (hf it).2.2 hp.2
      have hpit : it.session_id = sid ∧ it.status = "PENDING" := ⟨hits, hitp⟩
      rw [if_neg hfy, if_pos hpit]
      have htail := pendingCnt_update_le b c sid f hf l
      unfold updateItems at htail
      omega
    · have htail := ih it hmem hitb hitc hits hitp
      by_cases hc : y.batch_id = b ∧ y.chunk_id = c
      · rw [if_pos hc]
        have hfy : ¬ ((f y).session_id = sid ∧ (f y).status = "PENDING") :=
          fun hp => (hf y).2.2 hp.2
        rw [if_neg hfy]
        by_cases hp : y.session_id = sid ∧ y.status = "PENDING"
        · rw [if_pos hp]; omega
        · rw [if_neg hp]; omega
      · rw [if_neg hc]; omega

theorem updateItems_wf (its : List ItemRow) (b c : Nat) (f : ItemRow → ItemRow)
    (hf : ∀ x, (f x).batch_id = x.batch_id ∧ (f x).chunk_id = x.chunk_id
      ∧ (f x).session_id = x.session_id)
    (batch_id : Nat) (results : List UserResult)
    (h : WFResults its batch_id results) :
    WFResults (updateItems its b c f) batch_id results := by
  intro ur hur cr hcr it hit hb0 hc0
  rcases List.mem_map.mp hit with ⟨x, hx, hgx⟩
  by_cases hcond : x.batch_id = b ∧ x.chunk_id = c
  · rw [if_pos hcond] at hgx
    rw [← hgx] at hb0 hc0 ⊢
    rw [(hf x).2.2]
    exact h ur hur cr hcr x hx ((hf x).1.symm.trans hb0)
      ((hf x).2.1.symm.trans hc0)
  · rw [if_neg hcond] at hgx
    rw [← hgx] at hb0 hc0 ⊢
    exact h ur hur cr hcr x hx hb0 hc0

theorem updateSessions_ids (ss : List SessRow) (sid : Nat) (f : SessRow → SessRow)
    (hf : ∀ r, (f r).session_id = r.session_id) :
    (updateSessions ss sid f).map (fun r => r.session_id)
      = ss.map (fun r => r.session_id) := by
  unfold updateSessions
  rw [List.map_map]
  apply List.map_congr_left
  intro r _
  simp only [Function.comp_apply]
  by_cases h : r.session_id = sid
  · rw [if_pos h]
    exact hf r
  · rw [if_neg h]

theorem inv_wf_after_chunk (db : DB) (batch_id cid sid : Nat)
    (fIt : ItemRow → ItemRow) (fS : SessRow → SessRow)
    (hfIt1 : ∀ x, (fIt x).session_id = x.session_id ∧ (fIt x).bid = x.bid
      ∧ (fIt x).status ≠ "PENDING")
    (hfS0 : ∀ r, (fS r).session_id = r.session_id)
    (it : ItemRow) (hitmem : it ∈ db.items) (hitb : it.batch_id = batch_id)
    (hitc : it.chunk_id = cid) (hitsid : it.session_id = sid)
    (hitp : it.status = "PENDING")
    (hfSb : ∀ r, (fS r).in_flight_bid = r.in_flight_bid - it.bid)
    (hfSc : ∀ r, (fS r).in_flight_chunks = r.in_flight_chunks - 1)
    (hfSr : ∀ r, r.in_flight_bid ≤ r.remaining_bid →
      (fS r).in_flight_bid ≤ (fS r).remaining_bid)
    (hfSrc : ∀ r, r.in_flight_chunks ≤ r.remaining_chunks →
      (fS r).in_flight_chunks ≤ (fS r).remaining_chunks)
    (hI : Inv db) :
    Inv { db with
          items := updateItems db.items batch_id cid fIt,
          sessions := updateSessions db.sessions sid fS } := by
  obtain ⟨hnd, hbids, hrows⟩ := hI
  have hhit := pendingBidSum_update_hit batch_id cid sid fIt hfIt1 db.items
    hbids it hitmem hitb hitc hitsid hitp
  have hhitc := pendingCnt_update_hit batch_id cid sid fIt hfIt1 db.items
    it hitmem hitb hitc hitsid hitp
  refine ⟨?_, ?_, ?_⟩
  · have h : ((updateSessions db.sessions sid fS).map
        (fun r => r.session_id)).Nodup := by
      rw [updateSessions_ids _ _ _ hfS0]
      exact hnd
    exact h
  · have h : ∀ x ∈ updateItems db.items batch_id cid fIt, 0 ≤ x.bid := by
      intro x hx
      rcases List.mem_map.mp hx with ⟨x0, hx0, hgx⟩
      by_cases hcond : x0.batch_id = batch_id ∧ x0.chunk_id = cid
      · rw [if_pos hcond] at hgx
        rw [← hgx, (hfIt1 x0).2.1]
        exact hbids x0 hx0
      · rw [if_neg hcond] at hgx
        rw [← hgx]
        exact hbids x0 hx0
    exact h
  · have h : ∀ r1 ∈ updateSessions db.sessions sid fS,
        pendingBidSum (updateItems db.items batch_id cid fIt) r1.session_id
          ≤ r1.in_flight_bid
        ∧ r1.in_flight_bid ≤ r1.remaining_bid
        ∧ pendingCnt (updateItems db.items batch_id cid fIt) r1.session_id
          ≤ r1.in_flight_chunks
        ∧ r1.in_flight_chunks ≤ r1.remaining_chunks := by
      intro r1 hr1
      rcases List.mem_map.mp hr1 with ⟨r, hr, hgr⟩
      obtain ⟨h1, h2, h3, h4⟩ := hrows r hr
      by_cases hcond : r.session_id = sid
      · rw [if_pos hcond] at hgr
        rw [← hgr]
        refine ⟨?_, hfSr r h2, ?_, hfSrc r h4⟩
        · rw [hfS0 r, hcond, hfSb r]
          rw [hcond] at h1
          omega
        · rw [hfS0 r, hcond, hfSc r]
          rw [hcond] at h3
          omega
      · rw [if_neg hcond] at hgr
        rw [← hgr]
        have hle := pendingBidSum_update_le batch_id cid r.session_id fIt
          hfIt1 db.items hbids
        have hlec := pendingCnt_update_le batch_id cid r.session_id fIt
          hfIt1 db.items
        exact ⟨by omega, h2, by omega, h4⟩
    exact h

theorem commitChunk_P (now_i64 : Int) (batch_id sid : Nat)
    (results : List UserResult) (db : DB) (cr : ChunkResult) (db1 : DB)
    (hwf0 : ∀ it ∈ db.items, it.batch_id = batch_id →
      it.chunk_id = cr.chunk_id → it.session_id = sid)
    (hrun : commitChunk now_i64 batch_id sid db cr = .ok db1)
    (hP : Inv db ∧ WFResults db.items batch_id results) :
    Inv db1 ∧ WFResults db1.items batch_id results := by
  obtain ⟨hI, hwf⟩ := hP
  obtain ⟨hnd, hbids, hrows⟩ := hI
  unfold commitChunk at hrun
  cases hfind : findItem db.items batch_id cr.chunk_id with
  | none =>
    rw [hfind] at hrun
    exact absurd hrun (by simp)
  | some it =>
    simp only [hfind] at hrun
    by_cases hst : it.status ≠ "PENDING"
    · rw [if_pos hst] at hrun
      rw [← Except.ok.inj hrun]
      exact ⟨⟨hnd, hbids, hrows⟩, hwf⟩
    · rw [if_neg hst] at hrun
      have hitp : it.status = "PENDING" := not_not.mp hst
      have hitmem : it ∈ db.items := List.mem_of_find?_eq_some hfind
      have hitkey : it.batch_id = batch_id ∧ it.chunk_id = cr.chunk_id := by
        have h0 := List.find?_some hfind
        simpa using h0
      have hitsid : it.session_id = sid := hwf0 it hitmem hitkey.1 hitkey.2
      have hitb0 : 0 ≤ it.bid := hbids it hitmem
      cases hcs : cr.status with
      | success tx_id =>
        rw [hcs] at hrun
        rw [← Except.ok.inj hrun]
        constructor
        · exact inv_wf_after_chunk db batch_id cr.chunk_id sid
            (fun r => { r with
              status := "SUCCESS", tx_id := tx_id, error := "" })
            (fun r => { r with
              in_flight_bid := r.in_flight_bid - it.bid,
              in_flight_chunks := r.in_flight_chunks - 1,
              remaining_bid := r.remaining_bid - it.bid,
              remaining_chunks := r.remaining_chunks - 1,
              last_served_ms := now_i64 })
            (fun x => ⟨rfl, rfl,
              (by decide : ("SUCCESS" : String) ≠ "PENDING")⟩)
            (fun r => rfl)
            it hitmem hitkey.1 hitkey.2 hitsid hitp
            (fun r => rfl) (fun r => rfl)
            (fun r h => by dsimp only; omega)
            (fun r h => by dsimp only; omega)
            ⟨hnd, hbids, hrows⟩
        · exact updateItems_wf db.items batch_id cr.chunk_id
            (fun r => { r with
              status := "SUCCESS", tx_id := tx_id, error := "" })
            (fun x => ⟨rfl, rfl, rfl⟩) batch_id results hwf
      | failed reason =>
        rw [hcs] at hrun
        rw [← Except.ok.inj hrun]
        constructor
        · exact inv_wf_after_chunk db batch_id cr.chunk_id sid
            (fun r => { r with
              status := "FAILED", tx_id := "", error := reason })
            (fun r => { r with
              in_flight_bid := r.in_flight_bid - it.bid,
              in_flight_chunks := r.in_flight_chunks - 1 })
            (fun x => ⟨rfl, rfl,
              (by decide : ("FAILED" : String) ≠ "PENDING")⟩)
            (fun r => rfl)
            it hitmem hitkey.1 hitkey.2 hitsid hitp
            (fun r => rfl) (fun r => rfl)
            (fun r h => by dsimp only; omega)
            (fun r h => by dsimp only; omega)
            ⟨hnd, hbids, hrows⟩
        · exact updateItems_wf db.items batch_id cr.chunk_id
            (fun r => { r with
              status := "FAILED", tx_id := "", error := reason })
            (fun x => ⟨rfl, rfl, rfl⟩) batch_id results hwf
      | skipped reason =>
        rw [hcs] at hrun
        rw [← Except.ok.inj hrun]
        constructor
        · exact inv_wf_after_chunk db batch_id cr.chunk_id sid
            (fun r => { r with
              status := "SKIPPED", tx_id := "", error := reason })
            (fun r => { r with
              in_flight_bid := r.in_flight_bid - it.bid,
              in_flight_chunks := r.in_flight_chunks - 1 })
            (fun x => ⟨rfl, rfl,
              (by decide : ("SKIPPED" : String) ≠ "PENDING")⟩)
            (fun r => rfl)
            it hitmem hitkey.1 hitkey.2 hitsid hitp
            (fun r => rfl) (fun r => rfl)
            (fun r h => by dsimp only; omega)
            (fun r h => by dsimp only; omega)
            ⟨hnd, hbids, hrows⟩
        · exact updateItems_wf db.items batch_id cr.chunk_id
            (fun r => { r with
              status := "SKIPPED", tx_id := "", error := reason })
            (fun x => ⟨rfl, rfl, rfl⟩) batch_id results hwf

theorem commitCooldown_P (now_ms : Nat) (batch_id : Nat)
    (results : List UserResult) (db : DB) (ur : UserResult) (db1 : DB)
    (hrun : commitCooldown now_ms db ur = .ok db1)
    (hP : Inv db ∧ WFResults db.items batch_id results) :
    Inv db1 ∧ WFResults db1.items batch_id results := by
  obtain ⟨⟨hnd, hbids, hrows⟩, hwf⟩ := hP
  unfold commitCooldown at hrun
  cases hc : ur.cooldown_ms with
  | none =>
    simp only [hc] at hrun
    rw [← Except.ok.inj hrun]
    exact ⟨⟨hnd, hbids, hrows⟩, hwf⟩
  | some cd =>
    simp only [hc] at hrun
    cases hu : u64_to_i64 (satAddU64 now_ms cd) with
    | error e => rw [hu] at hrun; exact absurd hrun (by simp)
    | ok v =>
      simp only [hu] at hrun
      rw [← Except.ok.inj hrun]
      refine ⟨⟨?_, hbids, ?_⟩, hwf⟩
      · have h : ((updateSessions db.sessions ur.session_id (fun r =>
            { r with cooldown_until_ms :=
                if r.cooldown_until_ms > v then r.cooldown_until_ms
                else v })).map (fun r => r.session_id)).Nodup := by
          rw [updateSessions_ids db.sessions ur.session_id (fun r =>
            { r with cooldown_until_ms :=
                if r.cooldown_until_ms > v then r.cooldown_until_ms
                else v }) (fun r => rfl)]
          exact hnd
        exact h
      · have h : ∀ r1 ∈ updateSessions db.sessions ur.session_id (fun r =>
            { r with cooldown_until_ms :=
                if r.cooldown_until_ms > v then r.cooldown_until_ms
                else v }),
            pendingBidSum db.items r1.session_id ≤ r1.in_flight_bid
            ∧ r1.in_flight_bid ≤ r1.remaining_bid
            ∧ pendingCnt db.items r1.session_id ≤ r1.in_flight_chunks
            ∧ r1.in_flight_chunks ≤ r1.remaining_chunks := by
          intro r1 hr1
          rcases List.mem_map.mp hr1 with ⟨r, hr, hgr⟩
          obtain ⟨h1, h2, h3, h4⟩ := hrows r hr
          by_cases hcond : r.session_id = ur.session_id
          · rw [if_pos hcond] at hgr
            rw [← hgr]
            exact ⟨h1, h2, h3, h4⟩
          · rw [if_neg hcond] at hgr
            rw [← hgr]
            exact ⟨h1, h2, h3, h4⟩
        exact h

theorem commitUser_P (now_ms : Nat) (now_i64 : Int) (batch_id : Nat)
    (results : List UserResult) (ur : UserResult) (hur : ur ∈ results)
    (db : DB) (db1 : DB)
    (hrun : commitUser now_ms now_i64 batch_id db ur = .ok db1)
    (hP : Inv db ∧ WFResults db.items batch_id results) :
    Inv db1 ∧ WFResults db1.items batch_id results := by
  unfold commitUser at hrun
  cases hcd : commitCooldown now_ms db ur with
  | error e => rw [hcd] at hrun; exact absurd hrun (by simp)
  | ok dbc =>
    rw [hcd] at hrun
    have hPc := commitCooldown_P now_ms batch_id results db ur dbc hcd hP
    exact foldlM_ok_preserve
      (fun d => Inv d ∧ WFResults d.items batch_id results)
      (commitChunk now_i64 batch_id ur.session_id)
      ur.chunk_results dbc db1
      (fun t cr hcr hPt t1 hstep =>
        commitChunk_P now_i64 batch_id ur.session_id results t cr t1
          (fun it hit hb hc => hPt.2 ur hur cr hcr it hit hb hc)
          hstep hPt)
      hPc hrun

theorem commit_inv (now_ms : Nat) (db : DB) (batch : ReservedBatch)
    (results : List UserResult) (db1 : DB)
    (hwf : WFResults db.items batch.batch_id results)
    (hrun : commit_batch now_ms db batch results = .ok db1)
    (hI : Inv db) : Inv db1 := by
  unfold commit_batch at hrun
  cases hfind : db.batches.find? (fun b => b.batch_id = batch.batch_id) with
  | none => simp only [hfind] at hrun; exact absurd hrun (by simp)
  | some row =>
    simp only [hfind] at hrun
    by_cases hst : row.status = "RESERVED"
    · rw [if_pos hst] at hrun
      cases hnow : u64_to_i64 now_ms with
      | error e => rw [hnow] at hrun; exact absurd hrun (by simp)
      | ok now_i64 =>
        simp only [hnow] at hrun
        cases hfold : results.foldlM
            (commitUser now_ms now_i64 batch.batch_id) db with
        | error e => simp only [hfold] at hrun; exact absurd hrun (by simp)
        | ok dbf =>
          simp only [hfold] at hrun
          have hP : Inv dbf ∧ WFResults dbf.items batch.batch_id results :=
            foldlM_ok_preserve
              (fun d => Inv d ∧ WFResults d.items batch.batch_id results)
              (commitUser now_ms now_i64 batch.batch_id) results db dbf
              (fun t ur hur hPt t1 hstep =>
                commitUser_P now_ms now_i64 batch.batch_id results ur hur t t1
                  hstep hPt)
              ⟨hI, hwf⟩ hfold
          obtain ⟨⟨hnd, hbids, hrows⟩, _⟩ := hP
          rw [← Except.ok.inj hrun]
          refine ⟨?_, hbids, ?_⟩
          · have h : ((dbf.sessions.map (fun r =>
                if (results.map (fun ur => ur.session_id)).contains
                    r.session_id
                then { r with has_pending_batch := false }
                else r)).map (fun r => r.session_id)).Nodup := by
              rw [List.map_map]
              have hmc : dbf.sessions.map ((fun r => r.session_id) ∘ (fun r =>
                  if (results.map (fun ur => ur.session_id)).contains
                      r.session_id
                  then { r with has_pending_batch := false } else r))
                  = dbf.sessions.map (fun r => r.session_id) := by
                apply List.map_congr_left
                intro r _
                simp only [Function.comp_apply]
                by_cases hc2 : (results.map
                    (fun ur => ur.session_id)).contains r.session_id = true
                · rw [if_pos hc2]
                · rw [if_neg hc2]
              rw [hmc]
              exact hnd
            exact h
          · have h : ∀ r1 ∈ dbf.sessions.map (fun r =>
                if (results.map (fun ur => ur.session_id)).contains
                    r.session_id
                then { r with has_pending_batch := false } else r),
                pendingBidSum dbf.items r1.session_id ≤ r1.in_flight_bid
                ∧ r1.in_flight_bid ≤ r1.remaining_bid
                ∧ pendingCnt dbf.items r1.session_id ≤ r1.in_flight_chunks
                ∧ r1.in_flight_chunks ≤ r1.remaining_chunks := by
              intro r1 hr1
              rcases List.mem_map.mp hr1 with ⟨r, hr, hgr⟩
              obtain ⟨h1, h2, h3, h4⟩ := hrows r hr
              by_cases hc2 : (results.map
                  (fun ur => ur.session_id)).contains r.session_id = true
              · rw [if_pos hc2] at hgr
                rw [← hgr]
                exact ⟨h1, h2, h3, h4⟩
              · rw [if_neg hc2] at hgr
                rw [← hgr]
                exact ⟨h1, h2, h3, h4⟩
            exact h
    · rw [if_neg hst] at hrun
      by_cases hca : row.status = "COMMITTED" ∨ row.status = "ABORTED"
      · rw [if_pos hca] at hrun
        rw [← Except.ok.inj hrun]
        exact hI
      · rw [if_neg hca] at hrun
        exact absurd hrun (by simp)

theorem reserveAlloc_accinv (items0 : List ItemRow) (batch_id : Nat)
    (pair : String) (now_ms : Nat) (acc : RAcc) (a : PlannedAllocation)
    (acc1 : RAcc)
    (hrun : reserveAlloc pair now_ms batch_id acc a = .ok acc1)
    (hA : AccInv items0 acc) : AccInv items0 acc1 := by
  obtain ⟨hnd, hnew, hrows⟩ := hA
  have hgt : ¬ ((a.chunks.sum : Int) > I64MAX) := by
    intro hgt
    have hconv : u128_to_i64 a.chunks.sum = .error "u128 too large for i64" := by
      unfold u128_to_i64; rw [if_pos hgt]
    unfold reserveAlloc at hrun
    rw [hconv] at hrun
    exact absurd hrun (by simp)
  have htb : u128_to_i64 a.chunks.sum = .ok (a.chunks.sum : Int) := by
    unfold u128_to_i64; rw [if_neg hgt]
  unfold reserveAlloc at hrun
  rw [htb] at hrun
  simp only [u32_to_i64] at hrun
  by_cases hcnt : (acc.sessions.filter (fun r =>
      reserveCond r a.session_id pair (a.chunks.sum : Int)
        (a.chunks.length : Int))).length = 1
  · rw [if_neg (by omega)] at hrun
    have hall : ∀ c ∈ a.chunks, (c : Int) ≤ I64MAX := by
      intro c hc
      have h1 : c ≤ a.chunks.sum :=
        List.single_le_sum (fun x _ => Nat.zero_le x) c hc
      have h2 : (c : Int) ≤ (a.chunks.sum : Int) := by exact_mod_cast h1
      omega
    rcases insertChunks_ok batch_id a.session_id a.chunks acc.next hall
      with ⟨⟨cs, its, nx⟩, hic⟩
    rcases insertChunks_spec batch_id a.session_id a.chunks acc.next cs its nx
      hic with ⟨hspec_all, hspec_sum, hspec_len⟩
    rcases List.length_eq_one.mp hcnt with ⟨m, hm⟩
    rcases filter_one_unique hm with ⟨hmmem, hmcond, _⟩
    have hmsid : m.session_id = a.session_id := by
      unfold reserveCond at hmcond
      simp only [decide_eq_true_eq] at hmcond
      exact hmcond.1
    have hgoal : AccInv items0
        { sessions := acc.sessions.map (fun r =>
            if reserveCond r a.session_id pair (a.chunks.sum : Int)
                (a.chunks.length : Int) then
              reserveSet (a.chunks.sum : Int) (a.chunks.length : Int) r
            else r),
          new_items := acc.new_items ++ its,
          users := acc.users ++ [⟨a.session_id, cs⟩],
          any := true,
          next := nx } := by
      refine ⟨?_, ?_, ?_⟩
      · have h : ((acc.sessions.map (fun r =>
            if reserveCond r a.session_id pair (a.chunks.sum : Int)
                (a.chunks.length : Int) then
              reserveSet (a.chunks.sum : Int) (a.chunks.length : Int) r
            else r)).map (fun r => r.session_id)).Nodup := by
          rw [List.map_map]
          have hmc : acc.sessions.map ((fun r => r.session_id) ∘ (fun r =>
              if reserveCond r a.session_id pair (a.chunks.sum : Int)
                  (a.chunks.length : Int) then
                reserveSet (a.chunks.sum : Int) (a.chunks.length : Int) r
              else r)) = acc.sessions.map (fun r => r.session_id) := by
            apply List.map_congr_left
            intro r _
            simp only [Function.comp_apply]
            by_cases hc : reserveCond r a.session_id pair
                (a.chunks.sum : Int) (a.chunks.length : Int) = true
            · rw [if_pos hc]
              rfl
            · rw [if_neg hc]
          rw [hmc]
          exact hnd
        exact h
      · have h : ∀ it ∈ acc.new_items ++ its,
            0 ≤ it.bid ∧ it.status = "PENDING" := by
          intro it hit
          rcases List.mem_append.mp hit with h0 | h0
          · exact hnew it h0
          · exact ⟨(hspec_all it h0).2.2.2, (hspec_all it h0).2.2.1⟩
        exact h
      · have h : ∀ r1 ∈ acc.sessions.map (fun r =>
            if reserveCond r a.session_id pair (a.chunks.sum : Int)
                (a.chunks.length : Int) then
              reserveSet (a.chunks.sum : Int) (a.chunks.length : Int) r
            else r),
            pendingBidSum (items0 ++ (acc.new_items ++ its)) r1.session_id
              ≤ r1.in_flight_bid
            ∧ r1.in_flight_bid ≤ r1.remaining_bid
            ∧ pendingCnt (items0 ++ (acc.new_items ++ its)) r1.session_id
              ≤ r1.in_flight_chunks
            ∧ r1.in_flight_chunks ≤ r1.remaining_chunks := by
          intro r1 hr1
          rcases List.mem_map.mp hr1 with ⟨r, hr, hgr⟩
          obtain ⟨h1, h2, h3, h4⟩ := hrows r hr
          by_cases hc : reserveCond r a.session_id pair (a.chunks.sum : Int)
              (a.chunks.length : Int) = true
          · rw [if_pos hc] at hgr
            rw [← hgr]
            have hcond : r.session_id = a.session_id
                ∧ r.remaining_bid - r.in_flight_bid ≥ (a.chunks.sum : Int)
                ∧ r.remaining_chunks - r.in_flight_chunks
                  ≥ (a.chunks.length : Int) := by
              unfold reserveCond at hc
              simp only [decide_eq_true_eq] at hc
              exact ⟨hc.1, hc.2.2.2.2.1, hc.2.2.2.2.2⟩
            have hps : pendingBidSum (items0 ++ (acc.new_items ++ its))
                r.session_id
                = pendingBidSum (items0 ++ acc.new_items) r.session_id
                  + (a.chunks.sum : Int) := by
              rw [← List.append_assoc, pendingBidSum_append]
              have hits : pendingBidSum its r.session_id
                  = (a.chunks.sum : Int) := by
                rw [hcond.1]
                rw [pendingBidSum_of_own_pending its a.session_id
                  (fun it hit =>
                    ⟨(hspec_all it hit).1, (hspec_all it hit).2.2.1⟩)]
                rw [hspec_sum]
              rw [hits]
            have hpc : pendingCnt (items0 ++ (acc.new_items ++ its))
                r.session_id
                = pendingCnt (items0 ++ acc.new_items) r.session_id
                  + (a.chunks.length : Int) := by
              rw [← List.append_assoc, pendingCnt_append]
              have hits : pendingCnt its r.session_id
                  = (a.chunks.length : Int) := by
                rw [hcond.1]
                rw [pendingCnt_of_own_pending its a.session_id
                  (fun it hit =>
                    ⟨(hspec_all it hit).1, (hspec_all it hit).2.2.1⟩)]
                rw [hspec_len]
              rw [hits]
            unfold reserveSet
            dsimp only
            rw [hps, hpc]
            refine ⟨by omega, by omega, by omega, by omega⟩
          · rw [if_neg hc] at hgr
            rw [← hgr]
            have hrsid : r.session_id ≠ a.session_id := by
              intro heq
              have hrm : r = m := List.inj_on_of_nodup_map hnd hr hmmem
                (by rw [heq, hmsid])
              rw [hrm] at hc
              exact hc hmcond
            have hps : pendingBidSum (items0 ++ (acc.new_items ++ its))
                r.session_id
                = pendingBidSum (items0 ++ acc.new_items) r.session_id := by
              rw [← List.append_assoc, pendingBidSum_append,
                pendingBidSum_of_other its a.session_id r.session_id
                  (fun it hit => (hspec_all it hit).1) hrsid, add_zero]
            have hpc : pendingCnt (items0 ++ (acc.new_items ++ its))
                r.session_id
                = pendingCnt (items0 ++ acc.new_items) r.session_id := by
              rw [← List.append_assoc, pendingCnt_append,
                pendingCnt_of_other its a.session_id r.session_id
                  (fun it hit => (hspec_all it hit).1) hrsid, add_zero]
            rw [hps, hpc]
            exact ⟨h1, h2, h3, h4⟩
        exact h
    cases hany : acc.any with
    | true =>
      rw [hany] at hrun
      simp only [if_true] at hrun
      rw [hic] at hrun
      rw [← Except.ok.inj hrun]
      exact hgoal
    | false =>
      rw [hany] at hrun
      simp only [Bool.false_eq_true, if_false] at hrun
      cases hnow : u64_to_i64 now_ms with
      | error e => rw [hnow] at hrun; exact absurd hrun (by simp)
      | ok v =>
        rw [hnow] at hrun
        rw [hic] at hrun
        rw [← Except.ok.inj hrun]
        exact hgoal
  · rw [if_pos (by simpa using hcnt)] at hrun
    have hnd0 := hnd
    have hle1 := filter_cond_length_le_one acc.sessions hnd0
      (fun r => reserveCond r a.session_id pair (a.chunks.sum : Int)
        (a.chunks.length : Int)) a.session_id
      (fun r hr => by
        unfold reserveCond at hr
        simp only [decide_eq_true_eq] at hr
        exact hr.1)
    have h0 : (acc.sessions.filter (fun r =>
        reserveCond r a.session_id pair (a.chunks.sum : Int)
          (a.chunks.length : Int))).length = 0 := by omega
    have hnone : ∀ r ∈ acc.sessions,
        ¬ (reserveCond r a.session_id pair (a.chunks.sum : Int)
            (a.chunks.length : Int) = true) := by
      intro r hr hcond
      have hmem : r ∈ acc.sessions.filter (fun r =>
          reserveCond r a.session_id pair (a.chunks.sum : Int)
            (a.chunks.length : Int)) := List.mem_filter.mpr ⟨hr, hcond⟩
      rw [List.length_eq_zero] at h0
      rw [h0] at hmem
      exact absurd hmem (by simp)
    have hsmap : acc.sessions.map (fun r =>
        if reserveCond r a.session_id pair (a.chunks.sum : Int)
            (a.chunks.length : Int) = true
        then reserveSet (a.chunks.sum : Int) (a.chunks.length : Int) r else r)
        = acc.sessions := by
      calc acc.sessions.map (fun r =>
            if reserveCond r a.session_id pair (a.chunks.sum : Int)
                (a.chunks.length : Int) = true
            then reserveSet (a.chunks.sum : Int) (a.chunks.length : Int) r
            else r)
          = acc.sessions.map (fun r => r) := by
            apply List.map_congr_left
            intro r hr
            rw [if_neg (hnone r hr)]
        _ = acc.sessions := List.map_id _
    rw [← Except.ok.inj hrun, hsmap]
    exact ⟨hnd, hnew, hrows⟩

theorem reserveLoop_accinv (items0 : List ItemRow) (batch_id : Nat)
    (pair : String) (now_ms : Nat) :
    ∀ (allocs : List PlannedAllocation) (acc acc1 : RAcc),
      reserveLoop pair now_ms batch_id allocs acc = .ok acc1 →
      AccInv items0 acc → AccInv items0 acc1 := by
  intro allocs
  induction allocs with
  | nil =>
    intro acc acc1 hrun hA
    unfold reserveLoop at hrun
    rw [← Except.ok.inj hrun]
    exact hA
  | cons a rest ih =>
    intro acc acc1 hrun hA
    unfold reserveLoop at hrun
    cases hstep : reserveAlloc pair now_ms batch_id acc a with
    | error e => rw [hstep] at hrun; exact absurd hrun (by simp)
    | ok acc2 =>
      rw [hstep] at hrun
      exact ih acc2 acc1 hrun
        (reserveAlloc_accinv items0 batch_id pair now_ms acc a acc2 hstep hA)

theorem accinv_init (db : DB) (next : Nat) (hI : Inv db) :
    AccInv db.items ⟨db.sessions, [], [], false, next⟩ := by
  obtain ⟨hnd, hbids, hrows⟩ := hI
  refine ⟨hnd, ?_, ?_⟩
  · intro it hit
    exact absurd hit (by simp)
  · have h : ∀ r ∈ db.sessions,
        pendingBidSum (db.items ++ ([] : List ItemRow)) r.session_id
          ≤ r.in_flight_bid
        ∧ r.in_flight_bid ≤ r.remaining_bid
        ∧ pendingCnt (db.items ++ ([] : List ItemRow)) r.session_id
          ≤ r.in_flight_chunks
        ∧ r.in_flight_chunks ≤ r.remaining_chunks := by
      intro r hr
      rw [List.append_nil]
      exact hrows r hr
    exact h

theorem reserve_inv (db : DB) (pair : String) (now_ms : Nat)
    (allocs : List PlannedAllocation) (out : Option ReservedBatch) (db1 : DB)
    (hrun : reserve_execution db pair now_ms allocs = .ok (out, db1))
    (hI : Inv db) : Inv db1 := by
  unfold reserve_execution at hrun
  cases hloop : reserveLoop pair now_ms db.next_id allocs
      ⟨db.sessions, [], [], false, db.next_id + 1⟩ with
  | error e =>
    simp only [hloop] at hrun
    exact absurd hrun (by simp)
  | ok acc =>
    simp only [hloop] at hrun
    have hA : AccInv db.items acc :=
      reserveLoop_accinv db.items db.next_id pair now_ms allocs
        ⟨db.sessions, [], [], false, db.next_id + 1⟩ acc hloop
        (accinv_init db (db.next_id + 1) hI)
    cases hany : acc.any with
    | false =>
      rw [if_pos hany] at hrun
      have hdb : db1 = db := (congrArg Prod.snd (Except.ok.inj hrun)).symm
      rw [hdb]
      exact hI
    | true =>
      rw [if_neg (by simp [hany])] at hrun
      cases hnow : u64_to_i64 now_ms with
      | error e => rw [hnow] at hrun; exact absurd hrun (by simp)
      | ok created =>
        rw [hnow] at hrun
        have hdb : db1 =
            { sessions := acc.sessions,
              batches := db.batches
                ++ [⟨db.next_id, pair, created, "RESERVED", ""⟩],
              items := db.items ++ acc.new_items,
              next_id := acc.next } :=
          (congrArg Prod.snd (Except.ok.inj hrun)).symm
        rw [hdb]
        obtain ⟨hnd, hnew, hrows⟩ := hA
        obtain ⟨_, hbids0, _⟩ := hI
        refine ⟨hnd, ?_, ?_⟩
        · have hb : ∀ it ∈ db.items ++ acc.new_items, 0 ≤ it.bid := by
            intro it hit
            rcases List.mem_append.mp hit with h0 | h0
            · exact hbids0 it h0
            · exact (hnew it h0).1
          exact hb
        · exact hrows

theorem step_inv (db db1 : DB) (h : Step db db1) (hI : Inv db) : Inv db1 := by
  cases h with
  | reserve pair now_ms allocs out db db1 hrun =>
    exact reserve_inv _ pair now_ms allocs out _ hrun hI
  | commit now_ms batch results db db1 hwf hrun =>
    exact commit_inv now_ms _ batch results _ hwf hrun hI

/-- C3: from a store satisfying the invariant, every store reachable by any
sequence of `reserve_execution` and (well-formed) `commit_batch` operations
keeps, for every session, `0 ≤ in_flight_bid ≤ remaining_bid` and
`0 ≤ in_flight_chunks ≤ remaining_chunks`. -/
theorem c3_in_flight_within_bounds (db db1 : DB) (hI : Inv db)
    (hreach : Reaches db db1) :
    ∀ r ∈ db1.sessions,
      0 ≤ r.in_flight_bid ∧ r.in_flight_bid ≤ r.remaining_bid
      ∧ 0 ≤ r.in_flight_chunks ∧ r.in_flight_chunks ≤ r.remaining_chunks := by
  have hI1 : Inv db1 := by
    induction hreach with
    | refl => exact hI
    | tail hsteps hlast ih => exact step_inv _ _ hlast ih
  obtain ⟨hnd, hbids, hrows⟩ := hI1
  intro r hr
  obtain ⟨h1, h2, h3, h4⟩ := hrows r hr
  have hps := pendingBidSum_nonneg db1.items r.session_id hbids
  have hpc := pendingCnt_nonneg db1.items r.session_id
  exact ⟨by omega, h2, by omega, h4⟩

/-- C3 witness: the bounds theorem applied to a concrete store (one session
with 200 of 1000 bid and 2 of 10 chunks in flight) via the empty operation
sequence. -/
theorem c3_in_flight_within_bounds_witness :
    Inv c3DB ∧ (∀ r ∈ c3DB.sessions,
      0 ≤ r.in_flight_bid ∧ r.in_flight_bid ≤ r.remaining_bid
      ∧ 0 ≤ r.in_flight_chunks ∧ r.in_flight_chunks ≤ r.remaining_chunks) :=
  ⟨by unfold Inv; decide, c3_in_flight_within_bounds c3DB c3DB
    (by unfold Inv; decide) Relation.ReflTransGen.refl⟩

end Kaskade
